import Mathlib

/-!
Verification of the abbott IRC bot's moderation, correlation and topic
machinery (src/abbott/plugins/admin.py, src/twistbot/plugins/auth.py,
src/twistbot/plugins/irc.py), shallowly embedded in Lean.

Python dictionaries are modelled as association lists whose insertion is
erase-then-append; only key lookups of these maps are ever observed by the
code, so the key order chosen by the model is immaterial.  Sets of Twisted
`Deferred` objects are modelled as lists of fresh numeric waiter ids, and a
resolution log records every `callback`/`errback` delivery.
-/

namespace Abbott

/-! ### Association-list helpers -/

def alookup [DecidableEq α] (k : α) : List (α × β) → Option β
  | [] => none
  | (a, b) :: r => if a = k then some b else alookup k r

def aerase [DecidableEq α] (k : α) (l : List (α × β)) : List (α × β) :=
  l.filter (fun p => p.1 ≠ k)

def aset [DecidableEq α] (k : α) (v : β) (l : List (α × β)) : List (α × β) :=
  aerase k l ++ [(k, v)]

def akeys (l : List (α × β)) : List α := l.map (·.1)

def avals (l : List (α × List β)) : List β := (l.map (·.2)).flatten

@[simp] theorem alookup_nil [DecidableEq α] (k : α) :
    alookup k ([] : List (α × β)) = none := rfl

@[simp] theorem alookup_cons [DecidableEq α] (k : α) (p : α × β) (l : List (α × β)) :
    alookup k (p :: l) = if p.1 = k then some p.2 else alookup k l := by
  cases p; rfl

theorem someOr (a : α) (o : Option α) : (some a).or o = some a := rfl

theorem noneOr (o : Option α) : (none : Option α).or o = o := by cases o <;> rfl

theorem alookup_append [DecidableEq α] (k : α) (l₁ l₂ : List (α × β)) :
    alookup k (l₁ ++ l₂) = ((alookup k l₁).or (alookup k l₂)) := by
  induction l₁ with
  | nil => simp
  | cons p r ih =>
    by_cases h : p.1 = k <;> simp [h, ih]

@[simp] theorem aerase_nil [DecidableEq α] (k : α) :
    aerase k ([] : List (α × β)) = [] := rfl

theorem aerase_cons [DecidableEq α] (k : α) (p : α × β) (l : List (α × β)) :
    aerase k (p :: l) = if p.1 = k then aerase k l else p :: aerase k l := by
  by_cases h : p.1 = k <;> simp [aerase, h]

@[simp] theorem alookup_aerase_self [DecidableEq α] (k : α) (l : List (α × β)) :
    alookup k (aerase k l) = none := by
  induction l with
  | nil => rfl
  | cons p r ih =>
    rw [aerase_cons]
    by_cases h : p.1 = k <;> simp [h, ih]

theorem alookup_aerase_ne [DecidableEq α] {k k' : α} (h : k' ≠ k) (l : List (α × β)) :
    alookup k' (aerase k l) = alookup k' l := by
  induction l with
  | nil => rfl
  | cons p r ih =>
    rw [aerase_cons]
    by_cases hp : p.1 = k
    · rw [if_pos hp, ih, alookup_cons, if_neg (by rw [hp]; exact fun he => h he.symm)]
    · rw [if_neg hp, alookup_cons, alookup_cons]
      by_cases hp' : p.1 = k' <;> simp [hp', ih]

@[simp] theorem alookup_aset_self [DecidableEq α] (k : α) (v : β) (l : List (α × β)) :
    alookup k (aset k v l) = some v := by
  simp [aset, alookup_append]

theorem alookup_aset_ne [DecidableEq α] {k k' : α} (h : k' ≠ k) (v : β) (l : List (α × β)) :
    alookup k' (aset k v l) = alookup k' l := by
  rw [aset, alookup_append, alookup_aerase_ne h]
  have hsingle : alookup k' [(k, v)] = none := by
    rw [alookup_cons, if_neg (fun he => h he.symm)]
    rfl
  rw [hsingle, Option.or_none]

theorem mem_akeys_iff [DecidableEq α] {k : α} {l : List (α × β)} :
    k ∈ akeys l ↔ ∃ v, (k, v) ∈ l := by
  constructor
  · intro h
    obtain ⟨p, hp, he⟩ := List.mem_map.1 h
    exact ⟨p.2, by rwa [show (k, p.2) = p from Prod.ext he.symm rfl]⟩
  · rintro ⟨v, hv⟩
    exact List.mem_map.2 ⟨(k, v), hv, rfl⟩

theorem mem_akeys_of_alookup [DecidableEq α] {k : α} {v : β} {l : List (α × β)}
    (h : alookup k l = some v) : k ∈ akeys l := by
  induction l with
  | nil => simp [alookup] at h
  | cons p r ih =>
    rw [alookup_cons] at h
    by_cases hp : p.1 = k
    · exact hp ▸ List.mem_map.2 ⟨p, List.mem_cons_self p r, rfl⟩
    · rw [if_neg hp] at h
      exact List.mem_cons_of_mem _ (ih h)

theorem alookup_eq_none_of_not_mem [DecidableEq α] {k : α} {l : List (α × β)}
    (h : k ∉ akeys l) : alookup k l = none := by
  induction l with
  | nil => rfl
  | cons p r ih =>
    rw [alookup_cons]
    have h1 : p.1 ≠ k := fun he => h (he ▸ List.mem_map.2 ⟨p, List.mem_cons_self .., rfl⟩)
    have h2 : k ∉ akeys r := fun hm => h (List.mem_cons_of_mem _ hm)
    rw [if_neg h1, ih h2]

theorem alookup_isSome_of_mem_akeys [DecidableEq α] {k : α} {l : List (α × β)}
    (h : k ∈ akeys l) : (alookup k l).isSome := by
  induction l with
  | nil => exact absurd h (by simp [akeys])
  | cons p r ih =>
    rw [alookup_cons]
    by_cases hp : p.1 = k
    · simp [hp]
    · rw [if_neg hp]
      rcases List.mem_cons.1 h with he | hm
      · exact absurd he.symm (by simpa [akeys] using hp)
      · exact ih hm

theorem akeys_append (l₁ l₂ : List (α × β)) :
    akeys (l₁ ++ l₂) = akeys l₁ ++ akeys l₂ := by
  simp [akeys]

theorem not_mem_akeys_aerase [DecidableEq α] (k : α) (l : List (α × β)) :
    k ∉ akeys (aerase k l) := by
  intro h
  obtain ⟨p, hp, he⟩ := List.mem_map.1 h
  have := List.of_mem_filter hp
  simp [he] at this

theorem sublist_aerase [DecidableEq α] (k : α) (l : List (α × β)) :
    (aerase k l).Sublist l := List.filter_sublist l

theorem akeys_sublist_of_sublist {l₁ l₂ : List (α × β)} (h : l₁.Sublist l₂) :
    (akeys l₁).Sublist (akeys l₂) := List.Sublist.map _ h

theorem nodup_akeys_aerase [DecidableEq α] {l : List (α × β)} (k : α)
    (h : (akeys l).Nodup) : (akeys (aerase k l)).Nodup :=
  List.Nodup.sublist (akeys_sublist_of_sublist (sublist_aerase k l)) h

theorem nodup_akeys_aset [DecidableEq α] {l : List (α × β)} (k : α) (v : β)
    (h : (akeys l).Nodup) : (akeys (aset k v l)).Nodup := by
  rw [aset, akeys_append, List.nodup_append]
  refine ⟨nodup_akeys_aerase k h, by simp [akeys], ?_⟩
  intro a ha hb
  have hak : a = k := by simpa [akeys] using hb
  exact not_mem_akeys_aerase k l (hak ▸ ha)

@[simp] theorem avals_nil : avals ([] : List (α × List β)) = [] := rfl

theorem avals_append (l₁ l₂ : List (α × List β)) :
    avals (l₁ ++ l₂) = avals l₁ ++ avals l₂ := by
  simp [avals]

@[simp] theorem avals_cons (p : α × List β) (l : List (α × List β)) :
    avals (p :: l) = p.2 ++ avals l := by
  simp [avals]

theorem aerase_of_not_mem_akeys [DecidableEq α] {k : α} {l : List (α × β)}
    (h : k ∉ akeys l) : aerase k l = l := by
  apply List.filter_eq_self.2
  intro p hp
  simp only [ne_eq, decide_eq_true_eq]
  intro he
  exact h (he ▸ List.mem_map.2 ⟨p, hp, rfl⟩)

/-- With nodup keys, the joined values decompose (up to permutation) as the
values at `k` followed by the values of the map with `k` erased. -/
theorem avals_perm_aerase [DecidableEq α] (k : α) {l : List (α × List β)}
    (h : (akeys l).Nodup) :
    List.Perm (avals l) (((alookup k l).getD []) ++ avals (aerase k l)) := by
  induction l with
  | nil => simp
  | cons p r ih =>
    obtain ⟨a, v⟩ := p
    have h' : a ∉ akeys r ∧ (akeys r).Nodup := by simpa [akeys] using h
    rw [aerase_cons]
    by_cases hp : a = k
    · subst hp
      have hnm : a ∉ akeys r := h'.1
      rw [if_pos rfl, aerase_of_not_mem_akeys hnm, alookup_cons, if_pos rfl]
      simp
    · rw [if_neg hp, alookup_cons, if_neg hp, avals_cons, avals_cons]
      have step := List.Perm.append_left v (ih h'.2)
      refine step.trans ?_
      rw [← List.append_assoc, ← List.append_assoc]
      exact List.Perm.append_right _ List.perm_append_comm

theorem avals_aset [DecidableEq α] (k : α) (v : List β) (l : List (α × List β)) :
    avals (aset k v l) = avals (aerase k l) ++ v := by
  simp [aset, avals_append]

/-! ### Counting helper for the persisted timer list -/

theorem countP_filter_le (p q : α → Bool) (l : List α) :
    (l.filter q).countP p ≤ l.countP p := by
  induction l with
  | nil => simp
  | cons x r ih =>
    by_cases hq : q x
    · by_cases hp : p x <;> simp [hq, hp, List.countP_cons, ih]
    · by_cases hp : p x <;> simp [hq, hp, List.countP_cons] <;> omega

/-! ### parse_time (admin.py lines 15-29)

`duration_match = r"(?P<duration>\d+[dhmsw])"`; `re.findall` returns, in
order, every maximal digit run that is immediately followed by a unit
character (a digit run whose follower is not a unit character can never
match, since backtracking inside the run leaves a digit as the follower and
digits are not unit characters).  The scanner recurses on a fuel argument,
initialised to the string length, so that it reduces in the kernel; the
fuel never runs out because every step shortens the list. -/

def isUnitChar (c : Char) : Bool :=
  c = 's' ∨ c = 'm' ∨ c = 'h' ∨ c = 'd' ∨ c = 'w'

def unitMultiplier (c : Char) : Nat :=
  if c = 's' then 1
  else if c = 'm' then 60
  else if c = 'h' then 60 * 60
  else if c = 'd' then 60 * 60 * 24
  else if c = 'w' then 60 * 60 * 24 * 7
  else 0

def natOfDigits (l : List Char) : Nat :=
  l.foldl (fun n c => n * 10 + (c.toNat - 48)) 0

def scanAux : Nat → List Char → List (Nat × Char)
  | 0, _ => []
  | _, [] => []
  | fuel + 1, c :: rest =>
    if c.isDigit then
      match rest.dropWhile Char.isDigit with
      | [] => []
      | u :: rest' =>
        if isUnitChar u then
          (natOfDigits (c :: rest.takeWhile Char.isDigit), u) :: scanAux fuel rest'
        else
          scanAux fuel (u :: rest')
    else
      scanAux fuel rest

def scanComponents (l : List Char) : List (Nat × Char) :=
  scanAux l.length l

def parse_time (timestr : String) : Nat :=
  (scanComponents timestr.data).foldl (fun d p => d + p.1 * unitMultiplier p.2) 0

/-! ### Outbound requests

The `ircop.*` requests and `irc.do_*` events the plugins hand to
`transport.issue_request` / `transport.send_event`. -/

inductive Req
  | kick (channel target : String) (reason : Option String)
  | mode (channel modeStr param : String)
  | topic (channel newtopic : String)
  | doTopic (channel : String)
  | msg (user message : String)
  deriving DecidableEq

/-! ### IRCAdmin timer registry (admin.py lines 38-178)

`later_timers` maps `(hostmask, channel, mode)` triples to Twisted timer
objects; timers are modelled by fresh numeric ids into `timerTab`, whose
records carry the armed `callLater` delay and a cancellation flag.
`laters` is the persisted `config['laters']` list of
`(activatetime, hostmask, channel, mode)` tuples. -/

abbrev Triple := String × String × String

structure TimerRec where
  triple : Triple
  armed : Int
  cancelled : Bool
  deriving DecidableEq

structure AdminState where
  nextT : Nat
  timerTab : List (Nat × TimerRec)
  later_timers : List (Triple × Nat)
  laters : List (Int × Triple)
  deriving DecidableEq

def adminInit : AdminState := ⟨0, [], [], []⟩

/-- Models `timer.cancel()` on the timer with id `tid`. -/
def cancelTimer (tid : Nat) (tab : List (Nat × TimerRec)) : List (Nat × TimerRec) :=
  tab.map (fun p => if p.1 = tid then (p.1, { p.2 with cancelled := true }) else p)

/-- The predicate of admin.py lines 81-85 selecting persisted items with
`item[1] == hostmask and item[2] == channel and item[3] == mode`. -/
def latersMatch (trip : Triple) (item : Int × Triple) : Bool := item.2 = trip

/-- Models `IRCAdmin._set_timer(delay, hostmask, channel, mode)` (admin.py 68-139):
pop and cancel any registry timer for the triple, drop every matching
persisted entry, arm `do_later` via `reactor.callLater(max(1, delay), ...)`,
file the fresh timer in the registry, and append
`(time.time() + delay, hostmask, channel, mode)` to the persisted list. -/
def set_timer (now delay : Int) (hostmask channel mode : String) (s : AdminState) :
    AdminState :=
  let trip : Triple := (hostmask, channel, mode)
  let tab₁ :=
    match alookup trip s.later_timers with
    | some tid => cancelTimer tid s.timerTab
    | none => s.timerTab
  { nextT := s.nextT + 1
    timerTab := tab₁ ++ [(s.nextT, ⟨trip, max 1 delay, false⟩)]
    later_timers := aset trip s.nextT s.later_timers
    laters := s.laters.filter (fun item => ! latersMatch trip item) ++ [(now + delay, trip)] }

/-- Models `IRCAdmin.on_event_irc_on_mode_change` (admin.py 141-165): when a mode
is unset (`event.set == False`), pop and cancel any pending timer keyed by
`(event.arg, event.channel, event.mode)` and drop the matching persisted
entries; when no timer matches, nothing changes. -/
def on_mode_change (setFlag : Bool) (mode arg channel : String) (s : AdminState) :
    AdminState :=
  if setFlag then s
  else
    let trip : Triple := (arg, channel, mode)
    match alookup trip s.later_timers with
    | none => s
    | some tid =>
      { s with
        later_timers := aerase trip s.later_timers
        timerTab := cancelTimer tid s.timerTab
        laters := s.laters.filter (fun item => ! latersMatch trip item) }

def unWord (mode : String) : String :=
  if mode = "q" then "quiet" else "ban"

/-- The `do_later` body armed by `_set_timer` (admin.py 88-120): remove the
registry entry and the matching persisted entries for the closed-over
triple, then issue the `ircop.mode` request `-mode` for the hostmask; an
`OpFailed` answer (`modeFail = some e`) is additionally reported as an
`irc.do_msg` to the channel.  A cancelled `callLater` timer never runs
this body. -/
def fire_timer (modeFail : Option String) (trip : Triple) (s : AdminState) :
    AdminState × List Req :=
  let s' := { s with
    later_timers := aerase trip s.later_timers
    laters := s.laters.filter (fun item => ! latersMatch trip item) }
  match modeFail with
  | none => (s', [Req.mode trip.2.1 ("-" ++ trip.2.2) trip.1])
  | some e =>
      (s', [Req.mode trip.2.1 ("-" ++ trip.2.2) trip.1,
            Req.msg trip.2.1
              ("I was about to un-" ++ unWord trip.2.2 ++ " " ++ trip.1 ++ ", but " ++ e)])

/-- A timer can still fire iff its record exists and is not cancelled. -/
def fireable (s : AdminState) (tid : Nat) : Bool :=
  match alookup tid s.timerTab with
  | some rec => !rec.cancelled
  | none => false

/-- Interleavings of `_set_timer` calls and inbound mode-change events. -/
inductive AdmEv
  | sched (now delay : Int) (hostmask channel mode : String)
  | mchange (setFlag : Bool) (mode arg channel : String)

def stepAdm (s : AdminState) : AdmEv → AdminState
  | .sched now delay hostmask channel mode => set_timer now delay hostmask channel mode s
  | .mchange setFlag mode arg channel => on_mode_change setFlag mode arg channel s

def runAdm (evs : List AdmEv) : AdminState := evs.foldl stepAdm adminInit

/-! #### Lemmas about `cancelTimer` -/

theorem cancelTimer_cons (tid : Nat) (p : Nat × TimerRec) (r : List (Nat × TimerRec)) :
    cancelTimer tid (p :: r) =
      (if p.1 = tid then (p.1, { p.2 with cancelled := true }) else p) :: cancelTimer tid r :=
  rfl

@[simp] theorem akeys_cons (p : α × β) (l : List (α × β)) :
    akeys (p :: l) = p.1 :: akeys l := rfl

theorem akeys_cancelTimer (tid : Nat) (tab : List (Nat × TimerRec)) :
    akeys (cancelTimer tid tab) = akeys tab := by
  induction tab with
  | nil => rfl
  | cons p r ih =>
    rw [cancelTimer_cons]
    by_cases hp : p.1 = tid
    · rw [if_pos hp, akeys_cons, akeys_cons, ih]
    · rw [if_neg hp, akeys_cons, akeys_cons, ih]

theorem alookup_cancelTimer_ne {t tid : Nat} (h : t ≠ tid) (tab : List (Nat × TimerRec)) :
    alookup t (cancelTimer tid tab) = alookup t tab := by
  induction tab with
  | nil => rfl
  | cons p r ih =>
    rw [cancelTimer_cons]
    by_cases hp : p.1 = tid
    · rw [if_pos hp]
      simp only [alookup_cons]
      simp [hp, Ne.symm h]
      exact ih
    · rw [if_neg hp]
      simp only [alookup_cons]
      by_cases hpt : p.1 = t
      · simp [hpt]
      · simp [hpt]
        exact ih

theorem alookup_cancelTimer_self (tid : Nat) (tab : List (Nat × TimerRec)) :
    alookup tid (cancelTimer tid tab) =
      (alookup tid tab).map (fun r => { r with cancelled := true }) := by
  induction tab with
  | nil => rfl
  | cons p r ih =>
    rw [cancelTimer_cons]
    by_cases hp : p.1 = tid
    · rw [if_pos hp]
      simp [alookup_cons, hp]
    · rw [if_neg hp]
      simp only [alookup_cons]
      simp [hp]
      exact ih

/-! #### The timer-registry invariant -/

structure AdminInv (s : AdminState) : Prop where
  regKeysNodup : (akeys s.later_timers).Nodup
  tabKeysNodup : (akeys s.timerTab).Nodup
  tabKeysLt : ∀ tid ∈ akeys s.timerTab, tid < s.nextT
  regMapped : ∀ trip tid, alookup trip s.later_timers = some tid →
      ∃ rec, alookup tid s.timerTab = some rec ∧ rec.triple = trip ∧ rec.cancelled = false
  pendingMapped : ∀ tid rec, alookup tid s.timerTab = some rec → rec.cancelled = false →
      alookup rec.triple s.later_timers = some tid
  latersOnce : ∀ trip : Triple, s.laters.countP (latersMatch trip) ≤ 1

theorem adminInv_init : AdminInv adminInit := by
  constructor <;> simp [adminInit, akeys]

/-- Two triples mapped to the same timer id are equal. -/
theorem regMapped_inj {s : AdminState} (hs : AdminInv s) {trip trip' : Triple} {tid : Nat}
    (h1 : alookup trip s.later_timers = some tid)
    (h2 : alookup trip' s.later_timers = some tid) : trip = trip' := by
  obtain ⟨rec, hrec, htrip, _⟩ := hs.regMapped trip tid h1
  obtain ⟨rec', hrec', htrip', _⟩ := hs.regMapped trip' tid h2
  injection hrec.symm.trans hrec' with he
  rw [← htrip, he, htrip']

theorem countP_latersMatch_filtered (trip trip' : Triple) (l : List (Int × Triple)) :
    (l.filter (fun item => ! latersMatch trip item)).countP (latersMatch trip') ≤
      if trip' = trip then 0 else l.countP (latersMatch trip') := by
  by_cases he : trip' = trip
  · subst he
    rw [if_pos rfl, Nat.le_zero, List.countP_eq_zero]
    intro a ha
    have := List.of_mem_filter ha
    simp only [Bool.not_eq_true'] at this
    simp [this]
  · rw [if_neg he]
    exact countP_filter_le _ _ l

theorem countP_latersMatch_single (trip trip' : Triple) (t : Int) :
    List.countP (latersMatch trip') [(t, trip)] = if trip' = trip then 1 else 0 := by
  by_cases he : trip' = trip
  · simp [List.countP_cons, latersMatch, he]
  · simp [List.countP_cons, latersMatch, he]
    exact fun h => he (Eq.symm h)

theorem adminInv_set_timer {s : AdminState} (hs : AdminInv s)
    (now delay : Int) (hostmask channel mode : String) :
    AdminInv (set_timer now delay hostmask channel mode s) := by
  have hfresh : ∀ tid ∈ akeys s.timerTab, tid ≠ s.nextT := by
    intro tid hm
    exact Nat.ne_of_lt (hs.tabKeysLt tid hm)
  have hfreshlook : alookup s.nextT s.timerTab = none := by
    apply alookup_eq_none_of_not_mem
    intro hm
    exact hfresh s.nextT hm rfl
  rcases halt : alookup ((hostmask, channel, mode) : Triple) s.later_timers with _ | tid₀
  all_goals
    refine ⟨?_, ?_, ?_, ?_, ?_, ?_⟩ <;>
      simp only [set_timer, halt]
  -- previous timer absent: tab₁ = s.timerTab
  case none.refine_1 => exact nodup_akeys_aset _ _ hs.regKeysNodup
  case none.refine_2 =>
    rw [akeys_append, List.nodup_append]
    refine ⟨hs.tabKeysNodup, by simp [akeys], ?_⟩
    intro a ha hb
    have hak : a = s.nextT := by simpa [akeys] using hb
    exact hfresh a ha hak
  case none.refine_3 =>
    intro tid hm
    rw [akeys_append] at hm
    rcases List.mem_append.1 hm with hm | hm
    · exact Nat.lt_succ_of_lt (hs.tabKeysLt tid hm)
    · have : tid = s.nextT := by simpa [akeys] using hm
      omega
  case none.refine_4 =>
    intro trip' tid h
    by_cases htr : trip' = (hostmask, channel, mode)
    · subst htr
      rw [alookup_aset_self] at h
      injection h with h
      subst h
      refine ⟨⟨(hostmask, channel, mode), max 1 delay, false⟩, ?_, rfl, rfl⟩
      rw [alookup_append, hfreshlook, noneOr, alookup_cons, if_pos rfl]
    · rw [alookup_aset_ne htr] at h
      obtain ⟨rec, hrec, htrip, hcanc⟩ := hs.regMapped trip' tid h
      refine ⟨rec, ?_, htrip, hcanc⟩
      rw [alookup_append, hrec, someOr]
  case none.refine_5 =>
    intro tid rec h hc
    rw [alookup_append] at h
    rcases h₁ : alookup tid s.timerTab with _ | rec₁
    · rw [h₁, noneOr, alookup_cons] at h
      by_cases ht : s.nextT = tid
      · rw [if_pos ht] at h
        injection h with h
        subst h
        rw [← ht, alookup_aset_self]
      · rw [if_neg ht] at h
        exact absurd h (by simp)
    · rw [h₁, someOr] at h
      injection h with hre
      rw [hre] at h₁
      have hmap := hs.pendingMapped tid rec h₁ hc
      have hne : rec.triple ≠ (hostmask, channel, mode) := by
        intro he
        rw [he, halt] at hmap
        exact absurd hmap (by simp)
      rw [alookup_aset_ne hne]
      exact hmap
  case none.refine_6 =>
    intro trip'
    rw [List.countP_append, countP_latersMatch_single]
    have hf := countP_latersMatch_filtered (hostmask, channel, mode) trip' s.laters
    by_cases he : trip' = (hostmask, channel, mode)
    · rw [if_pos he]
      rw [if_pos he] at hf
      omega
    · rw [if_neg he]
      rw [if_neg he] at hf
      have := hs.latersOnce trip'
      omega
  -- previous timer present: tab₁ = cancelTimer tid₀ s.timerTab
  case some.refine_1 => exact nodup_akeys_aset _ _ hs.regKeysNodup
  case some.refine_2 =>
    rw [akeys_append, akeys_cancelTimer, List.nodup_append]
    refine ⟨hs.tabKeysNodup, by simp [akeys], ?_⟩
    intro a ha hb
    have hak : a = s.nextT := by simpa [akeys] using hb
    exact hfresh a ha hak
  case some.refine_3 =>
    intro tid hm
    rw [akeys_append, akeys_cancelTimer] at hm
    rcases List.mem_append.1 hm with hm | hm
    · exact Nat.lt_succ_of_lt (hs.tabKeysLt tid hm)
    · have : tid = s.nextT := by simpa [akeys] using hm
      omega
  case some.refine_4 =>
    intro trip' tid h
    obtain ⟨rec₀, hrec₀, htrip₀, hcanc₀⟩ := hs.regMapped _ tid₀ halt
    by_cases htr : trip' = (hostmask, channel, mode)
    · subst htr
      rw [alookup_aset_self] at h
      injection h with h
      subst h
      refine ⟨⟨(hostmask, channel, mode), max 1 delay, false⟩, ?_, rfl, rfl⟩
      have hnone : alookup s.nextT (cancelTimer tid₀ s.timerTab) = none := by
        by_cases hn : s.nextT = tid₀
        · rw [hn, alookup_cancelTimer_self, ← hn, hfreshlook]
          rfl
        · rw [alookup_cancelTimer_ne hn, hfreshlook]
      rw [alookup_append, hnone, noneOr, alookup_cons, if_pos rfl]
    · rw [alookup_aset_ne htr] at h
      obtain ⟨rec, hrec, htrip, hcanc⟩ := hs.regMapped trip' tid h
      have htt : tid ≠ tid₀ := by
        intro he
        exact htr (regMapped_inj hs h (he ▸ halt))
      refine ⟨rec, ?_, htrip, hcanc⟩
      rw [alookup_append, alookup_cancelTimer_ne htt, hrec, someOr]
  case some.refine_5 =>
    intro tid rec h hc
    rw [alookup_append] at h
    rcases h₁ : alookup tid (cancelTimer tid₀ s.timerTab) with _ | rec₁
    · rw [h₁, noneOr, alookup_cons] at h
      by_cases ht : s.nextT = tid
      · rw [if_pos ht] at h
        injection h with h
        subst h
        rw [← ht, alookup_aset_self]
      · rw [if_neg ht] at h
        exact absurd h (by simp)
    · rw [h₁, someOr] at h
      injection h with hre
      rw [hre] at h₁
      have htt : tid ≠ tid₀ := by
        intro he
        rw [he, alookup_cancelTimer_self] at h₁
        rcases h₂ : alookup tid₀ s.timerTab with _ | rec₂
        · rw [h₂] at h₁
          exact absurd h₁ (by simp)
        · rw [h₂] at h₁
          injection h₁ with h₁
          rw [← h₁] at hc
          exact absurd hc (by simp)
      rw [alookup_cancelTimer_ne htt] at h₁
      have hmap := hs.pendingMapped tid rec h₁ hc
      have hne : rec.triple ≠ (hostmask, channel, mode) := by
        intro he
        rw [he, halt] at hmap
        injection hmap with hmap
        exact htt hmap.symm
      rw [alookup_aset_ne hne]
      exact hmap
  case some.refine_6 =>
    intro trip'
    rw [List.countP_append, countP_latersMatch_single]
    have hf := countP_latersMatch_filtered (hostmask, channel, mode) trip' s.laters
    by_cases he : trip' = (hostmask, channel, mode)
    · rw [if_pos he]
      rw [if_pos he] at hf
      omega
    · rw [if_neg he]
      rw [if_neg he] at hf
      have := hs.latersOnce trip'
      omega

theorem adminInv_mchange {s : AdminState} (hs : AdminInv s)
    (setFlag : Bool) (mode arg channel : String) :
    AdminInv (on_mode_change setFlag mode arg channel s) := by
  by_cases hset : setFlag
  · simpa [on_mode_change, hset] using hs
  · rcases halt : alookup ((arg, channel, mode) : Triple) s.later_timers with _ | tid₀
    · simpa [on_mode_change, hset, halt] using hs
    · refine ⟨?_, ?_, ?_, ?_, ?_, ?_⟩ <;>
        simp only [on_mode_change, hset, halt, Bool.false_eq_true, if_false, ite_false]
      · exact nodup_akeys_aerase _ hs.regKeysNodup
      · rw [akeys_cancelTimer]
        exact hs.tabKeysNodup
      · intro tid hm
        rw [akeys_cancelTimer] at hm
        exact hs.tabKeysLt tid hm
      · intro trip' tid h
        have htr : trip' ≠ (arg, channel, mode) := by
          intro he
          rw [he, alookup_aerase_self] at h
          exact absurd h (by simp)
        rw [alookup_aerase_ne htr] at h
        obtain ⟨rec, hrec, htrip, hcanc⟩ := hs.regMapped trip' tid h
        have htt : tid ≠ tid₀ := by
          intro he
          exact htr (regMapped_inj hs h (he ▸ halt))
        exact ⟨rec, by rw [alookup_cancelTimer_ne htt]; exact hrec, htrip, hcanc⟩
      · intro tid rec h hc
        have htt : tid ≠ tid₀ := by
          intro he
          rw [he, alookup_cancelTimer_self] at h
          rcases h₂ : alookup tid₀ s.timerTab with _ | rec₂
          · rw [h₂] at h
            exact absurd h (by simp)
          · rw [h₂] at h
            injection h with h
            rw [← h] at hc
            exact absurd hc (by simp)
        rw [alookup_cancelTimer_ne htt] at h
        have hmap := hs.pendingMapped tid rec h hc
        have hne : rec.triple ≠ (arg, channel, mode) := by
          intro he
          rw [he, halt] at hmap
          injection hmap with hmap
          exact htt hmap.symm
        rw [alookup_aerase_ne hne]
        exact hmap
      · intro trip'
        calc (s.laters.filter (fun item => ! latersMatch (arg, channel, mode) item)).countP
              (latersMatch trip') ≤ s.laters.countP (latersMatch trip') :=
                countP_filter_le _ _ _
          _ ≤ 1 := hs.latersOnce trip'

theorem adminInv_stepAdm {s : AdminState} (hs : AdminInv s) (e : AdmEv) :
    AdminInv (stepAdm s e) := by
  cases e with
  | sched now delay hostmask channel mode =>
    exact adminInv_set_timer hs now delay hostmask channel mode
  | mchange setFlag mode arg channel =>
    exact adminInv_mchange hs setFlag mode arg channel

theorem adminInv_foldl (evs : List AdmEv) :
    ∀ s : AdminState, AdminInv s → AdminInv (evs.foldl stepAdm s) := by
  induction evs with
  | nil => exact fun _ hs => hs
  | cons e r ih => exact fun s hs => ih _ (adminInv_stepAdm hs e)

theorem adminInv_runAdm (evs : List AdmEv) : AdminInv (runAdm evs) :=
  adminInv_foldl evs adminInit adminInv_init

/-- A cancelled timer stays cancelled across any further step. -/
theorem cancelled_step {s : AdminState} {tid : Nat} {rec : TimerRec}
    (h : alookup tid s.timerTab = some rec) (hc : rec.cancelled = true) (e : AdmEv) :
    ∃ rec', alookup tid (stepAdm s e).timerTab = some rec' ∧ rec'.cancelled = true := by
  cases e with
  | sched now delay hostmask channel mode =>
    rcases halt : alookup ((hostmask, channel, mode) : Triple) s.later_timers with _ | tid₀ <;>
      simp only [stepAdm, set_timer, halt]
    · exact ⟨rec, by rw [alookup_append, h, someOr], hc⟩
    · by_cases ht : tid = tid₀
      · refine ⟨{ rec with cancelled := true }, ?_, rfl⟩
        rw [alookup_append, ht, alookup_cancelTimer_self, ← ht, h]
        rfl
      · exact ⟨rec, by rw [alookup_append, alookup_cancelTimer_ne ht, h, someOr], hc⟩
  | mchange setFlag mode arg channel =>
    by_cases hset : setFlag
    · exact ⟨rec, by simp only [stepAdm, on_mode_change, hset, if_true, ite_true]; exact h, hc⟩
    · rcases halt : alookup ((arg, channel, mode) : Triple) s.later_timers with _ | tid₀
      · exact ⟨rec, by
          simp only [stepAdm, on_mode_change, hset, halt, Bool.false_eq_true, if_false,
            ite_false]
          exact h, hc⟩
      · by_cases ht : tid = tid₀
        · refine ⟨{ rec with cancelled := true }, ?_, rfl⟩
          simp only [stepAdm, on_mode_change, hset, halt, Bool.false_eq_true, if_false,
            ite_false]
          rw [ht, alookup_cancelTimer_self, ← ht, h]
          rfl
        · exact ⟨rec, by
            simp only [stepAdm, on_mode_change, hset, halt, Bool.false_eq_true, if_false,
              ite_false]
            rw [alookup_cancelTimer_ne ht]
            exact h, hc⟩

theorem cancelled_foldl (more : List AdmEv) :
    ∀ (s : AdminState) (rec : TimerRec) (tid : Nat),
      alookup tid s.timerTab = some rec → rec.cancelled = true →
      ∃ rec', alookup tid (more.foldl stepAdm s).timerTab = some rec' ∧
        rec'.cancelled = true := by
  induction more with
  | nil => exact fun _ rec _ h hc => ⟨rec, h, hc⟩
  | cons e r ih =>
    intro s rec tid h hc
    obtain ⟨rec', h', hc'⟩ := cancelled_step h hc e
    exact ih _ rec' tid h' hc'

theorem fireable_eq_false {s : AdminState} {tid : Nat} {rec : TimerRec}
    (h : alookup tid s.timerTab = some rec) (hc : rec.cancelled = true) :
    fireable s tid = false := by
  simp [fireable, h, hc]

theorem filter_of_filter_not (p : α → Bool) (l : List α) :
    (l.filter (fun a => ! p a)).filter p = [] := by
  induction l with
  | nil => rfl
  | cons x r ih =>
    by_cases hp : p x <;> simp [hp, ih]

/-- C4: for every sequence of `_set_timer` calls and mode-change events
starting from a fresh `IRCAdmin`, the in-memory registry keys and the
matching persisted `laters` entries stay unique per (target, channel, mode)
triple, and every not-cancelled timer is the currently registered one (so
only the most recently scheduled timer per triple survives); moreover each
`_set_timer` call registers the fresh timer, arms it with delay
`max 1 delay`, leaves exactly the one persisted entry
`(now + delay, triple)` for its triple, and cancels the previously
registered timer, if any. -/
theorem C4_timer_replace :
    (∀ evs : List AdmEv,
      (akeys (runAdm evs).later_timers).Nodup ∧
      (∀ trip : Triple, (runAdm evs).laters.countP (latersMatch trip) ≤ 1) ∧
      (∀ tid rec, alookup tid (runAdm evs).timerTab = some rec → rec.cancelled = false →
        alookup rec.triple (runAdm evs).later_timers = some tid)) ∧
    (∀ (evs : List AdmEv) (now delay : Int) (hostmask channel mode : String),
      alookup ((hostmask, channel, mode) : Triple)
          (set_timer now delay hostmask channel mode (runAdm evs)).later_timers =
        some (runAdm evs).nextT ∧
      (alookup (runAdm evs).nextT
          (set_timer now delay hostmask channel mode (runAdm evs)).timerTab).map
          TimerRec.armed = some (max 1 delay) ∧
      (set_timer now delay hostmask channel mode (runAdm evs)).laters.filter
          (latersMatch (hostmask, channel, mode)) =
        [(now + delay, (hostmask, channel, mode))] ∧
      (∀ tid₀,
        alookup ((hostmask, channel, mode) : Triple) (runAdm evs).later_timers = some tid₀ →
        (alookup tid₀
            (set_timer now delay hostmask channel mode (runAdm evs)).timerTab).map
            TimerRec.cancelled = some true)) := by
  constructor
  · intro evs
    have hs := adminInv_runAdm evs
    exact ⟨hs.regKeysNodup, hs.latersOnce, hs.pendingMapped⟩
  · intro evs now delay hostmask channel mode
    have hs := adminInv_runAdm evs
    have hfreshlook : alookup (runAdm evs).nextT (runAdm evs).timerTab = none := by
      apply alookup_eq_none_of_not_mem
      intro hm
      exact absurd rfl (Nat.ne_of_lt (hs.tabKeysLt _ hm))
    refine ⟨?_, ?_, ?_, ?_⟩
    · simp only [set_timer]
      exact alookup_aset_self _ _ _
    · rcases halt : alookup ((hostmask, channel, mode) : Triple) (runAdm evs).later_timers
        with _ | tid₀ <;> simp only [set_timer, halt]
      · rw [alookup_append, hfreshlook, noneOr, alookup_cons, if_pos rfl]
        rfl
      · have hnone : alookup (runAdm evs).nextT (cancelTimer tid₀ (runAdm evs).timerTab)
            = none := by
          by_cases hn : (runAdm evs).nextT = tid₀
          · rw [hn, alookup_cancelTimer_self, ← hn, hfreshlook]
            rfl
          · rw [alookup_cancelTimer_ne hn, hfreshlook]
        rw [alookup_append, hnone, noneOr, alookup_cons, if_pos rfl]
        rfl
    · simp only [set_timer]
      rw [List.filter_append, filter_of_filter_not]
      simp [latersMatch]
    · intro tid₀ h
      simp only [set_timer, h]
      obtain ⟨rec₀, hrec₀, _, _⟩ := hs.regMapped _ tid₀ h
      rw [alookup_append, alookup_cancelTimer_self, hrec₀]
      rfl

/-- Witness for C4 at concrete inputs: a single scheduling yields a nodup
registry; a fresh scheduling with delay 0 is armed with delay 1 and
registered under id 0; re-scheduling the same triple cancels timer 0; and
the pending timer of a one-scheduling run is registry-mapped. -/
theorem C4_timer_replace_witness :
    (akeys (runAdm [AdmEv.sched 0 600 "h" "#c" "b"]).later_timers).Nodup ∧
    alookup (("*!*@x", "#c", "q") : Triple)
        (set_timer 5 0 "*!*@x" "#c" "q" (runAdm [])).later_timers = some 0 ∧
    (alookup 0 (set_timer 5 0 "*!*@x" "#c" "q" (runAdm [])).timerTab).map TimerRec.armed
        = some 1 ∧
    (alookup 0 (set_timer 1 7 "h" "#c" "b"
        (runAdm [AdmEv.sched 0 600 "h" "#c" "b"])).timerTab).map TimerRec.cancelled
        = some true ∧
    alookup (("h", "#c", "b") : Triple)
        (runAdm [AdmEv.sched 0 600 "h" "#c" "b"]).later_timers = some 0 := by
  refine ⟨(C4_timer_replace.1 [AdmEv.sched 0 600 "h" "#c" "b"]).1,
    (C4_timer_replace.2 [] 5 0 "*!*@x" "#c" "q").1,
    ?_,
    (C4_timer_replace.2 [AdmEv.sched 0 600 "h" "#c" "b"] 1 7 "h" "#c" "b").2.2.2 0 (by decide),
    (C4_timer_replace.1 [AdmEv.sched 0 600 "h" "#c" "b"]).2.2 0
      ⟨("h", "#c", "b"), 600, false⟩ (by decide) rfl⟩
  have h := (C4_timer_replace.2 [] 5 0 "*!*@x" "#c" "q").2.1
  simpa using h

/-- C5: an inbound mode-change notification with the set flag false whose
(target, channel, mode) matches a pending timer entry removes that entry
from the in-memory registry and every matching entry from the persisted
laters list, cancels the timer, and the timed `-mode` reversal can never
fire afterwards, whatever further schedulings or mode changes occur. -/
theorem C5_early_cancellation (evs : List AdmEv) (tid : Nat) (user channel mode : String)
    (hpend : alookup ((user, channel, mode) : Triple) (runAdm evs).later_timers = some tid) :
    alookup ((user, channel, mode) : Triple)
        (on_mode_change false mode user channel (runAdm evs)).later_timers = none ∧
    (on_mode_change false mode user channel (runAdm evs)).laters.countP
        (latersMatch (user, channel, mode)) = 0 ∧
    (alookup tid (on_mode_change false mode user channel (runAdm evs)).timerTab).map
        TimerRec.cancelled = some true ∧
    ∀ more : List AdmEv,
      fireable (more.foldl stepAdm (on_mode_change false mode user channel (runAdm evs)))
        tid = false := by
  have hs := adminInv_runAdm evs
  obtain ⟨rec₀, hrec₀, _, _⟩ := hs.regMapped _ tid hpend
  have hcanc : alookup tid
      (on_mode_change false mode user channel (runAdm evs)).timerTab =
        some { rec₀ with cancelled := true } := by
    simp only [on_mode_change, hpend, Bool.false_eq_true, if_false, ite_false]
    rw [alookup_cancelTimer_self, hrec₀]
    rfl
  refine ⟨?_, ?_, ?_, ?_⟩
  · simp only [on_mode_change, hpend, Bool.false_eq_true, if_false, ite_false]
    exact alookup_aerase_self _ _
  · simp only [on_mode_change, hpend, Bool.false_eq_true, if_false, ite_false]
    have hf := countP_latersMatch_filtered (user, channel, mode) (user, channel, mode)
      (runAdm evs).laters
    rw [if_pos rfl] at hf
    omega
  · rw [hcanc]
    rfl
  · intro more
    obtain ⟨rec', h', hc'⟩ := cancelled_foldl more _ _ tid hcanc rfl
    exact fireable_eq_false h' hc'

/-- Witness for C5: scheduling `-q` for `h` on `#c`, then seeing a manual
`-q` for the same triple, clears the registry entry and keeps the timer
unfireable even after another scheduling. -/
theorem C5_early_cancellation_witness :
    alookup (("h", "#c", "q") : Triple)
        (on_mode_change false "q" "h" "#c"
          (runAdm [AdmEv.sched 0 600 "h" "#c" "q"])).later_timers = none ∧
    ([AdmEv.sched 3 9 "h" "#c" "q"].foldl stepAdm
        (on_mode_change false "q" "h" "#c"
          (runAdm [AdmEv.sched 0 600 "h" "#c" "q"]))).timerTab.length = 2 ∧
    fireable ([AdmEv.sched 3 9 "h" "#c" "q"].foldl stepAdm
        (on_mode_change false "q" "h" "#c"
          (runAdm [AdmEv.sched 0 600 "h" "#c" "q"]))) 0 = false := by
  have h := C5_early_cancellation [AdmEv.sched 0 600 "h" "#c" "q"] 0 "h" "#c" "q" (by decide)
  exact ⟨h.1, by decide, h.2.2.2 [AdmEv.sched 3 9 "h" "#c" "q"]⟩

/-! ### Moderation orchestration (admin.py lines 284-567)

The WHOIS resolution and the op-provider answers to issued `ircop.*`
requests are modelled by an oracle: `none` means the request succeeded,
`some e` that it raised `ircop.OpFailed(e)`.  The `reqs` component lists
the `ircop.*` requests a handler issued, in order; the WHOIS resolution of
`_nick_to_hostmask` goes through `o.whois` and is not an op request. -/

inductive WhoisRes
  | host (h : String)
  | noSuchNick
  | timedOut

structure Oracle where
  whois : String → WhoisRes
  kick : Option String
  mode : Option String

inductive WhoisErr
  | noSuchNick
  | whoisTimedout
  deriving DecidableEq

def strContains (s : String) (c : Char) : Bool := s.data.contains c

/-- Python `s.startswith("$")`: the first character is the extban sigil. -/
def startsWithDollar (s : String) : Bool :=
  match s.data with
  | [] => false
  | c :: _ => c = '$' 

/-- Python `s.split("!")[0]` (also `s.split("!", 1)[0]`): the prefix before the
first exclamation mark. -/
def nickPartOf (s : String) : String := ⟨s.data.takeWhile (fun c => c != '!')⟩

/-- Python truthiness of an optional string argument. -/
def pyTruthy (s : Option String) : Bool := s.getD "" ≠ ""

/-- Python `a or b` for an optional string `a`. -/
def pyOrStr (s : Option String) (dflt : String) : String :=
  if pyTruthy s then s.getD "" else dflt

def apos : String := ⟨[Char.ofNat 39]⟩

def whoisOddMsg (nick : String) : String :=
  "That" ++ apos ++ "s odd, the whois I did on " ++ nick ++ " didn" ++ apos ++
    "t work. Sorry."

/-- Python `{"q": "quiet", "b": "ban"}.get(mode, "apply to")`. -/
def modeWord (mode : String) : String :=
  if mode = "q" then "quiet" else if mode = "b" then "ban" else "apply to"

/-- Models `IRCAdmin._nick_to_hostmask` (admin.py 284-316): hostmasks (containing
`!` and `@`) and extbans (starting with `$`) pass through; otherwise a
WHOIS resolves the nick and the result is wildcarded to `*!*@host`. -/
def nick_to_hostmask (o : Oracle) (nick : String) : Except WhoisErr String :=
  if (strContains nick '!' && strContains nick '@') || startsWithDollar nick then
    .ok nick
  else
    match o.whois nick with
    | .host h => .ok ("*!*@" ++ h)
    | .noSuchNick => .error .noSuchNick
    | .timedOut => .error .whoisTimedout

structure ModResult where
  state : AdminState
  reqs : List Req
  replies : List String
  deriving DecidableEq

/-- Models `IRCAdmin._do_moderequest` (admin.py 481-520): resolve the target
(reporting `NoSuchNick` / `WhoisTimedout` to the caller), issue the
`+mode` request, convert an `OpFailed` to a reply and abort without
scheduling, and on success with a truthy duration arm the reversal timer
via `_set_timer(parse_time(duration), mask, channel, mode)`. -/
def do_moderequest (o : Oracle) (now : Int) (mode nick : String) (duration : Option String)
    (channel : String) (s : AdminState) : ModResult :=
  match nick_to_hostmask o nick with
  | .error .noSuchNick =>
      ⟨s, [], ["There is no user by that nick on the network. Try " ++ nick ++
        "!*@* to " ++ modeWord mode ++
        " anyone with that nick, or specify your own hostmask."]⟩
  | .error .whoisTimedout => ⟨s, [], [whoisOddMsg nick]⟩
  | .ok mask =>
    match o.mode with
    | some e => ⟨s, [Req.mode channel ("+" ++ mode) mask], [e]⟩
    | none =>
      if pyTruthy duration then
        ⟨set_timer now ((parse_time (duration.getD "") : Nat) : Int) mask channel mode s,
          [Req.mode channel ("+" ++ mode) mask], []⟩
      else
        ⟨s, [Req.mode channel ("+" ++ mode) mask], []⟩

/-- The kick decision of `IRCAdmin.ban` (admin.py 454-463), which also
rebinds the target to its nick part when a full hostmask was given. -/
def banKickInfo (nick : String) : String × Bool :=
  if strContains nick '@' && strContains nick '!' && ! strContains nick '$' then
    let np := nickPartOf nick
    (np, ! strContains np '*')
  else if ! strContains nick '@' && ! strContains nick '!' && ! strContains nick '$' then
    (nick, true)
  else
    (nick, false)

structure BanResult where
  state : AdminState
  reqs : List Req
  replies : List String
  exn : Option String
  deriving DecidableEq

/-- Models `IRCAdmin.ban` (admin.py 443-478): for a kickable target issue the
`ircop.kick` request before delegating to `_do_moderequest('b', ...)`.
The kick is issued outside any try/except, so an `OpFailed` raised by it
escapes the handler (recorded in `exn`). -/
def ban (o : Oracle) (now : Int) (nick : String) (duration reason : Option String)
    (user channel : String) (s : AdminState) : BanResult :=
  let ki := banKickInfo nick
  if ki.2 then
    let kreq := Req.kick channel ki.1
      (some (pyOrStr reason ("Requested by " ++ nickPartOf user)))
    match o.kick with
    | some e => ⟨s, [kreq], [], some e⟩
    | none =>
      let m := do_moderequest o now "b" ki.1 duration channel s
      ⟨m.state, kreq :: m.reqs, m.replies, none⟩
  else
    let m := do_moderequest o now "b" ki.1 duration channel s
    ⟨m.state, m.reqs, m.replies, none⟩

/-- Models `IRCAdmin.kick` (admin.py 318-334): issue the kick request and convert
an `OpFailed` into a chat reply. -/
def kick_cmd (o : Oracle) (channel nick : String) (reason : Option String) :
    List Req × List String :=
  ([Req.kick channel nick reason],
    match o.kick with
    | some e => [e]
    | none => [])

/-- Models `IRCAdmin._do_modederequest` (admin.py 540-566): resolve the target;
with a truthy delay only schedule the reversal timer and reply "It shall
be done", issuing no request now; with no delay issue `-mode` right away.
(The `try` wraps an un-yielded `issue_request`, so an asynchronous
`OpFailed` of the immediate request is never observed by the handler.) -/
def do_modederequest (o : Oracle) (now : Int) (mode nick : String)
    (duration : Option String) (channel : String) (s : AdminState) : ModResult :=
  match nick_to_hostmask o nick with
  | .error .noSuchNick =>
      ⟨s, [], ["There is no user by than nick on the network. Check the username or try specifying a full hostmask"]⟩
  | .error .whoisTimedout => ⟨s, [], [whoisOddMsg nick]⟩
  | .ok mask =>
    if pyTruthy duration then
      ⟨set_timer now ((parse_time (duration.getD "") : Nat) : Int) mask channel mode s, [],
        ["It shall be done"]⟩
    else
      ⟨s, [Req.mode channel ("-" ++ mode) mask], []⟩

/-- Models `IRCAdmin.unquiet` (admin.py 522-529). -/
def unquiet (o : Oracle) (now : Int) (nick : String) (duration : Option String)
    (channel : String) (s : AdminState) : ModResult :=
  do_modederequest o now "q" nick duration channel s

/-- Models `IRCAdmin.unban` (admin.py 531-538). -/
def unban (o : Oracle) (now : Int) (nick : String) (duration : Option String)
    (channel : String) (s : AdminState) : ModResult :=
  do_modederequest o now "b" nick duration channel s

/-- C3: for every kickable ban target the kick request is the first issued
request, hence strictly precedes the `+b` mode request; concretely, banning
the bare nick "evil" with duration "10m" from a fresh state issues exactly
the kick and then `+b *!*@host` for the WHOIS-resolved host, arms the
reversal timer with delay 600 seconds and persists its fire time
`now + 600`, and firing that timer emits `-b` for the same hostmask. -/
theorem C3_ban_kick_order :
    (∀ (o : Oracle) (now : Int) (nick : String) (duration reason : Option String)
        (user channel : String) (s : AdminState),
      (banKickInfo nick).2 = true →
      ∃ rsn tl, (ban o now nick duration reason user channel s).reqs =
        Req.kick channel (banKickInfo nick).1 rsn :: tl) ∧
    (∀ (o : Oracle) (h : String) (now : Int) (user channel : String),
      o.whois "evil" = .host h → o.kick = none → o.mode = none →
      (ban o now "evil" (some "10m") none user channel adminInit).reqs =
        [Req.kick channel "evil" (some ("Requested by " ++ nickPartOf user)),
         Req.mode channel "+b" ("*!*@" ++ h)] ∧
      (ban o now "evil" (some "10m") none user channel adminInit).replies = [] ∧
      (ban o now "evil" (some "10m") none user channel adminInit).exn = none ∧
      alookup (("*!*@" ++ h, channel, "b") : Triple)
        (ban o now "evil" (some "10m") none user channel adminInit).state.later_timers =
          some 0 ∧
      (alookup 0
        (ban o now "evil" (some "10m") none user channel adminInit).state.timerTab).map
          TimerRec.armed = some 600 ∧
      (ban o now "evil" (some "10m") none user channel adminInit).state.laters =
        [(now + 600, ("*!*@" ++ h, channel, "b"))] ∧
      (fire_timer none ("*!*@" ++ h, channel, "b")
        (ban o now "evil" (some "10m") none user channel adminInit).state).2 =
          [Req.mode channel "-b" ("*!*@" ++ h)]) := by
  constructor
  · intro o now nick duration reason user channel s hki
    simp only [ban]
    rw [hki]
    simp only [if_true, ite_true]
    rcases hk : o.kick with _ | e
    · exact ⟨_, _, rfl⟩
    · exact ⟨_, _, rfl⟩
  · intro o h now user channel hw hk hm
    have h2 : nick_to_hostmask o "evil" = .ok ("*!*@" ++ h) := by
      simp only [nick_to_hostmask]
      have hc : ((strContains "evil" '!' && strContains "evil" '@') ||
          startsWithDollar "evil") = false := by decide
      rw [hc]
      simp only [Bool.false_eq_true, if_false, ite_false]
      rw [hw]
    have hpt : ((parse_time "10m" : Nat) : Int) = 600 := by decide
    have h3 : do_moderequest o now "b" "evil" (some "10m") channel adminInit =
        ⟨set_timer now 600 ("*!*@" ++ h) channel "b" adminInit,
         [Req.mode channel "+b" ("*!*@" ++ h)], []⟩ := by
      simp only [do_moderequest, h2, hm]
      rw [show pyTruthy (some "10m") = true from by decide]
      simp only [if_true, ite_true, Option.getD_some, hpt]
      rfl
    have hban : ban o now "evil" (some "10m") none user channel adminInit =
        ⟨set_timer now 600 ("*!*@" ++ h) channel "b" adminInit,
         [Req.kick channel "evil" (some ("Requested by " ++ nickPartOf user)),
          Req.mode channel "+b" ("*!*@" ++ h)], [], none⟩ := by
      simp only [ban]
      rw [show banKickInfo "evil" = ("evil", true) from by decide]
      simp only [if_true, ite_true, hk, h3]
      rw [show pyOrStr none ("Requested by " ++ nickPartOf user) =
        "Requested by " ++ nickPartOf user from rfl]
    have hst : set_timer now 600 ("*!*@" ++ h) channel "b" adminInit =
        ⟨1, [(0, ⟨("*!*@" ++ h, channel, "b"), 600, false⟩)],
         [(("*!*@" ++ h, channel, "b"), 0)],
         [(now + 600, ("*!*@" ++ h, channel, "b"))]⟩ := by
      simp only [set_timer, adminInit, alookup_nil, aset, aerase_nil, List.nil_append,
        List.filter_nil]
      rw [show max (1 : Int) 600 = 600 from by decide]
    rw [hban, hst]
    refine ⟨rfl, rfl, rfl, ?_, ?_, rfl, ?_⟩
    · rw [alookup_cons, if_pos rfl]
    · rw [alookup_cons, if_pos rfl]
      rfl
    · rfl

/-- Witness for C3 at a concrete oracle, user, channel and time. -/
theorem C3_ban_kick_order_witness :
    (∃ rsn tl,
      (ban ⟨fun _ => WhoisRes.host "x.com", none, none⟩ 0 "evil" (some "10m") none
        "alice!a@b" "#chan" adminInit).reqs =
      Req.kick "#chan" (banKickInfo "evil").1 rsn :: tl) ∧
    (ban ⟨fun _ => WhoisRes.host "x.com", none, none⟩ 0 "evil" (some "10m") none
        "alice!a@b" "#chan" adminInit).reqs =
      [Req.kick "#chan" "evil" (some ("Requested by " ++ nickPartOf "alice!a@b")),
       Req.mode "#chan" "+b" ("*!*@" ++ "x.com")] ∧
    (fire_timer none ("*!*@" ++ "x.com", "#chan", "b")
      (ban ⟨fun _ => WhoisRes.host "x.com", none, none⟩ 0 "evil" (some "10m") none
        "alice!a@b" "#chan" adminInit).state).2 =
      [Req.mode "#chan" "-b" ("*!*@" ++ "x.com")] := by
  have hgen := C3_ban_kick_order.1 ⟨fun _ => WhoisRes.host "x.com", none, none⟩ 0 "evil"
    (some "10m") none "alice!a@b" "#chan" adminInit (by decide)
  have hcon := C3_ban_kick_order.2 ⟨fun _ => WhoisRes.host "x.com", none, none⟩ "x.com" 0
    "alice!a@b" "#chan" rfl rfl rfl
  exact ⟨hgen, hcon.1, hcon.2.2.2.2.2.2⟩

/-- C6 fails on the code: in `IRCAdmin.ban` the kick request is issued
outside any try/except, so with a kickable target an `OpFailed` raised by
the issued kick escapes the command handler as an exception and no chat
reply is produced. -/
theorem C6_cex_ban_kick_opfailed_propagates :
    (ban ⟨fun _ => WhoisRes.host "x.com", some "I could not get op", none⟩ 0 "evil"
        (some "10m") none "alice!a@b" "#chan" adminInit).exn =
      some "I could not get op" ∧
    (ban ⟨fun _ => WhoisRes.host "x.com", some "I could not get op", none⟩ 0 "evil"
        (some "10m") none "alice!a@b" "#chan" adminInit).replies = [] := by
  exact ⟨rfl, rfl⟩

/-- C6 amended: an `OpFailed` from the `+mode` request of
`_do_moderequest`, or from the request of the kick command handler, is
caught and converted to a chat reply, and a failed `+mode` request aborts
the operation without scheduling a reversal timer even when a duration was
given; however the kick request issued inside the ban handler is
unguarded: its `OpFailed` escapes the handler with no reply. -/
theorem C6_opfailed_handling_amended :
    (∀ (o : Oracle) (now : Int) (mode nick : String) (duration : Option String)
        (channel : String) (s : AdminState) (mask e : String),
      nick_to_hostmask o nick = .ok mask → o.mode = some e →
      (do_moderequest o now mode nick duration channel s).replies = [e] ∧
      (do_moderequest o now mode nick duration channel s).reqs =
        [Req.mode channel ("+" ++ mode) mask] ∧
      (do_moderequest o now mode nick duration channel s).state = s) ∧
    (∀ (o : Oracle) (channel nick : String) (reason : Option String) (e : String),
      o.kick = some e → (kick_cmd o channel nick reason).2 = [e]) ∧
    (∀ (o : Oracle) (now : Int) (nick : String) (duration reason : Option String)
        (user channel : String) (s : AdminState) (e : String),
      (banKickInfo nick).2 = true → o.kick = some e →
      (ban o now nick duration reason user channel s).exn = some e ∧
      (ban o now nick duration reason user channel s).replies = [] ∧
      (ban o now nick duration reason user channel s).state = s) := by
  refine ⟨?_, ?_, ?_⟩
  · intro o now mode nick duration channel s mask e hres hmode
    simp only [do_moderequest, hres, hmode]
    simp
  · intro o channel nick reason e hk
    simp only [kick_cmd, hk]
  · intro o now nick duration reason user channel s e hki hk
    simp only [ban]
    rw [hki]
    simp only [if_true, ite_true, hk]
    simp

/-- Witness for C6's amended statement at concrete inputs. -/
theorem C6_opfailed_handling_amended_witness :
    (do_moderequest ⟨fun _ => WhoisRes.host "x.com", none, some "failed, sorry"⟩ 0 "q"
        "joe" (some "5m") "#c" adminInit).replies = ["failed, sorry"] ∧
    (do_moderequest ⟨fun _ => WhoisRes.host "x.com", none, some "failed, sorry"⟩ 0 "q"
        "joe" (some "5m") "#c" adminInit).state = adminInit ∧
    (kick_cmd ⟨fun _ => WhoisRes.host "x.com", some "no op", none⟩ "#c" "joe" none).2 =
      ["no op"] ∧
    (ban ⟨fun _ => WhoisRes.host "x.com", some "no op", none⟩ 0 "evil" none none
        "alice!a@b" "#c" adminInit).exn = some "no op" := by
  have h1 := C6_opfailed_handling_amended.1
    ⟨fun _ => WhoisRes.host "x.com", none, some "failed, sorry"⟩ 0 "q" "joe" (some "5m")
    "#c" adminInit "*!*@x.com" "failed, sorry" rfl rfl
  have h2 := C6_opfailed_handling_amended.2.1
    ⟨fun _ => WhoisRes.host "x.com", some "no op", none⟩ "#c" "joe" none "no op" rfl
  have h3 := C6_opfailed_handling_amended.2.2
    ⟨fun _ => WhoisRes.host "x.com", some "no op", none⟩ 0 "evil" none none "alice!a@b"
    "#c" adminInit "no op" (by decide) rfl
  exact ⟨h1.1, h1.2.2, h2, h3.1⟩

/-- C10: for every target that resolves to a hostmask, `_do_modederequest`
with a truthy delay issues no request at all: it only schedules the
reversal timer for `parse_time(duration)` seconds and replies "It shall be
done", and the `-mode` request is emitted exactly when that timer fires;
with no delay the `-mode` request is issued immediately and the timer
state is untouched.  `unquiet` and `unban` are the `mode = "q"` / `"b"`
instances. -/
theorem C10_delayed_unmode :
    (∀ (o : Oracle) (now : Int) (mode nick d channel : String) (s : AdminState)
        (mask : String),
      nick_to_hostmask o nick = .ok mask → d ≠ "" →
      (do_modederequest o now mode nick (some d) channel s).reqs = [] ∧
      (do_modederequest o now mode nick (some d) channel s).replies =
        ["It shall be done"] ∧
      (do_modederequest o now mode nick (some d) channel s).state =
        set_timer now ((parse_time d : Nat) : Int) mask channel mode s ∧
      alookup ((mask, channel, mode) : Triple)
        (do_modederequest o now mode nick (some d) channel s).state.later_timers =
          some s.nextT ∧
      (fire_timer none (mask, channel, mode)
        (do_modederequest o now mode nick (some d) channel s).state).2 =
          [Req.mode channel ("-" ++ mode) mask]) ∧
    (∀ (o : Oracle) (now : Int) (mode nick channel : String) (s : AdminState)
        (mask : String),
      nick_to_hostmask o nick = .ok mask →
      (do_modederequest o now mode nick none channel s).reqs =
        [Req.mode channel ("-" ++ mode) mask] ∧
      (do_modederequest o now mode nick none channel s).state = s ∧
      (do_modederequest o now mode nick none channel s).replies = []) := by
  constructor
  · intro o now mode nick d channel s mask hres hd
    have hpt : pyTruthy (some d) = true := by
      simp [pyTruthy, hd]
    refine ⟨?_, ?_, ?_, ?_, ?_⟩ <;>
        simp only [do_modederequest, hres, hpt, if_true, ite_true] <;>
      first
        | rfl
        | (simp only [set_timer]; exact alookup_aset_self _ _ _)
  · intro o now mode nick channel s mask hres
    have hpt : pyTruthy none = false := rfl
    simp only [do_modederequest, hres, hpt, Bool.false_eq_true, if_false, ite_false]
    simp

/-- Witness for C10: `unquiet`/`unban` with and without a delay. -/
theorem C10_delayed_unmode_witness :
    (unquiet ⟨fun _ => WhoisRes.host "x.com", none, none⟩ 0 "joe" (some "5m") "#c"
        adminInit).reqs = [] ∧
    (unquiet ⟨fun _ => WhoisRes.host "x.com", none, none⟩ 0 "joe" (some "5m") "#c"
        adminInit).replies = ["It shall be done"] ∧
    (fire_timer none ("*!*@x.com", "#c", "q")
      (unquiet ⟨fun _ => WhoisRes.host "x.com", none, none⟩ 0 "joe" (some "5m") "#c"
        adminInit).state).2 = [Req.mode "#c" "-q" "*!*@x.com"] ∧
    (unban ⟨fun _ => WhoisRes.host "x.com", none, none⟩ 0 "joe" none "#c"
        adminInit).reqs = [Req.mode "#c" "-b" "*!*@x.com"] := by
  have h1 := C10_delayed_unmode.1 ⟨fun _ => WhoisRes.host "x.com", none, none⟩ 0 "q"
    "joe" "5m" "#c" adminInit "*!*@x.com" rfl (by decide)
  have h2 := C10_delayed_unmode.2 ⟨fun _ => WhoisRes.host "x.com", none, none⟩ 0 "b"
    "joe" "#c" adminInit "*!*@x.com" rfl
  exact ⟨h1.1, h1.2.1, h1.2.2.2.2, h2.1⟩

/-! ### IRCTopic (admin.py lines 569-793)

`topic_stack` is the per-channel `deque(maxlen=10)` of known topics (most
recent last) and `topic_waiters` maps a channel to the set of deferreds
waiting for the current topic, each carrying the continuation a topic
command attached via `addCallbacks`.  `armed` lists the channels with a
pending 10-second failure `callLater`; `log` records every waiter
resolution as `(waiter id, success flag)`; `emitted` and `replies` collect
outbound requests/events and `event.reply` texts. -/

inductive Cont
  | append (text : String)
  | insert (pos : Int) (text : String)
  | replaceAt (pos : Int) (text : String)
  | removeAt (pos : Int)
  | pop
  deriving DecidableEq

structure TopicSys where
  topic_stack : List (String × List String)
  topic_waiters : List (String × List (Nat × Cont))
  nextW : Nat
  armed : List String
  log : List (Nat × Bool)
  emitted : List Req
  replies : List String
  deriving DecidableEq

def topicInit : TopicSys := ⟨[], [], 0, [], [], [], []⟩

def stackOf (s : TopicSys) (channel : String) : List String :=
  (alookup channel s.topic_stack).getD []

/-- Python `str.strip()` whitespace. -/
def pySpace (c : Char) : Bool :=
  c = ' ' ∨ c = '\t' ∨ c = '\n' ∨ c = '\r'

def pyStrip (l : List Char) : List Char :=
  ((l.dropWhile pySpace).reverse.dropWhile pySpace).reverse

/-- Python `str.split(sep)` for a one-character separator. -/
def splitChar (c : Char) : List Char → List (List Char)
  | [] => [[]]
  | x :: xs =>
    match splitChar c xs with
    | [] => [[]]
    | h :: t => if x = c then [] :: h :: t else (x :: h) :: t

/-- Python `[x.strip() for x in currenttopic.split("|")]`. -/
def topicParts (cur : String) : List String :=
  (splitChar '|' cur.data).map (fun l => ⟨pyStrip l⟩)

/-- Python `[x.strip() for x in currenttopic.strip().split("|")]` — the variant
`topicappend` uses (admin.py 698). -/
def topicPartsA (cur : String) : List String :=
  (splitChar '|' (pyStrip cur.data)).map (fun l => ⟨pyStrip l⟩)

/-- Python `" | ".join(topic_parts)`. -/
def joinParts (parts : List String) : String := String.intercalate " | " parts

def insertAt : Nat → α → List α → List α
  | 0, x, l => x :: l
  | _ + 1, x, [] => [x]
  | n + 1, x, y :: l => y :: insertAt n x l

/-- Python `list.insert(pos, x)`: negative positions count from the end
and out-of-range positions are clamped — `insert` never raises. -/
def pyInsert (l : List String) (pos : Int) (x : String) : List String :=
  let n : Int := l.length
  let idx : Nat := if pos < 0 then (max (pos + n) 0).toNat else (min pos n).toNat
  insertAt idx x l

/-- Python index validity for `l[pos] = x` / `del l[pos]`: `some` of the
effective index when `-len <= pos < len`, else `none` (IndexError). -/
def pyIdx (n : Nat) (pos : Int) : Option Nat :=
  if 0 ≤ pos then (if pos < (n : Int) then some pos.toNat else none)
  else (if -(n : Int) ≤ pos then some (pos + n).toNat else none)

def pySet (l : List String) (pos : Int) (x : String) : Option (List String) :=
  (pyIdx l.length pos).map (fun i => l.set i x)

def pyDel (l : List String) (pos : Int) : Option (List String) :=
  (pyIdx l.length pos).map (fun i => l.eraseIdx i)

inductive CAct
  | req (r : Req)
  | rep (msg : String)
  deriving DecidableEq

def idxErrMsg (n : Nat) : String :=
  "There are only " ++ toString n ++ " topic parts. Remember indexes start at 0"

/-- The callback a topic command attaches via `addCallbacks`
(admin.py 694-778), run with the current topic once it is known: compute
the edited part list and issue the `ircop.topic` request, or reply with
the index error for `replace`/`remove`/`pop` on IndexError. -/
def runCont (channel current : String) : Cont → CAct
  | .append text => .req (.topic channel (joinParts (topicPartsA current ++ [text])))
  | .insert pos text =>
      .req (.topic channel (joinParts (pyInsert (topicParts current) pos text)))
  | .replaceAt pos text =>
      match pySet (topicParts current) pos text with
      | some parts => .req (.topic channel (joinParts parts))
      | none => .rep (idxErrMsg (topicParts current).length)
  | .removeAt pos =>
      match pyDel (topicParts current) pos with
      | some parts => .req (.topic channel (joinParts parts))
      | none => .rep (idxErrMsg (topicParts current).length)
  | .pop =>
      match pyDel (topicParts current) (-1) with
      | some parts => .req (.topic channel (joinParts parts))
      | none => .rep (idxErrMsg (topicParts current).length)

def applyCAct (s : TopicSys) : CAct → TopicSys
  | .req r => { s with emitted := s.emitted ++ [r] }
  | .rep m => { s with replies := s.replies ++ [m] }

/-- A topic edit command entering `_get_current_topic` (admin.py 657-692):
with a cached topic, `defer.succeed` runs the attached callback
synchronously; otherwise the `irc.do_topic` query event is sent
unconditionally, a fresh waiter carrying the callback joins
`topic_waiters[channel]`, and the 10-second failure timeout is armed only
when the waiter set was empty. -/
def topicOp (s : TopicSys) (channel : String) (k : Cont) : TopicSys :=
  match (stackOf s channel).getLast? with
  | some cur => applyCAct s (runCont channel cur k)
  | none =>
    let w := (alookup channel s.topic_waiters).getD []
    { s with
      emitted := s.emitted ++ [Req.doTopic channel]
      armed := if w = [] then s.armed ++ [channel] else s.armed
      topic_waiters := aset channel (w ++ [(s.nextW, k)]) s.topic_waiters
      nextW := s.nextW + 1 }

/-- Python `deque(maxlen=10).append`. -/
def dequeAppend (t : String) (l : List String) : List String :=
  if l.length < 10 then l ++ [t] else l.drop 1 ++ [t]

/-- Models `IRCTopic.on_event_irc_on_topic_updated` (admin.py 641-655): push the
new topic when it differs from the current top (always when the stack is
empty, since `oldtopic = None`), then pop the channel's waiter set and
resolve every waiter with the new topic, running its attached callback;
the first resolution cancels the pending failure timeout. -/
def on_topic_updated (s : TopicSys) (channel newtopic : String) : TopicSys :=
  let pushed := aset channel (dequeAppend newtopic (stackOf s channel)) s.topic_stack
  let s₁ := if (stackOf s channel).getLast? ≠ some newtopic then
      { s with topic_stack := pushed }
    else s
  let w := (alookup channel s₁.topic_waiters).getD []
  let s₂ := { s₁ with
    topic_waiters := aerase channel s₁.topic_waiters
    armed := if w = [] then s₁.armed else s₁.armed.erase channel
    log := s₁.log ++ w.map (fun p => (p.1, true)) }
  w.foldl (fun acc p => applyCAct acc (runCont channel newtopic p.2)) s₂

/-- The 10-second failure timeout armed by `_get_current_topic`
(admin.py 679-683): errback every waiter for the channel; each command's
errback replies "Could not determine current topic". -/
def topic_timeout (s : TopicSys) (channel : String) : TopicSys :=
  let w := (alookup channel s.topic_waiters).getD []
  { s with
    topic_waiters := aerase channel s.topic_waiters
    armed := s.armed.erase channel
    log := s.log ++ w.map (fun p => (p.1, false))
    replies := s.replies ++ w.map (fun _ => "Could not determine current topic") }

def noHistoryMsg : String :=
  "I don" ++ apos ++ "t know what the topic used to be. Cannot undo =("

/-- Models `IRCTopic.topic_undo` (admin.py 780-793): with fewer than 2 recorded
topics reply and stop; otherwise pop the current topic off the stored
stack, pop the previous one, and issue it as the new topic request. -/
def topic_undo (s : TopicSys) (channel : String) : TopicSys :=
  let l := stackOf s channel
  if l.length < 2 then
    { s with replies := s.replies ++ [noHistoryMsg] }
  else
    match l.dropLast.getLast? with
    | some newtopic =>
      { s with
        topic_stack := aset channel l.dropLast.dropLast s.topic_stack
        emitted := s.emitted ++ [Req.topic channel newtopic] }
    | none => s

inductive TEv
  | append (channel text : String)
  | insert (channel : String) (pos : Int) (text : String)
  | replaceAt (channel : String) (pos : Int) (text : String)
  | removeAt (channel : String) (pos : Int)
  | pop (channel : String)
  | undo (channel : String)
  | updated (channel newtopic : String)
  | timeout (channel : String)

def stepT (s : TopicSys) : TEv → TopicSys
  | .append channel text => topicOp s channel (.append text)
  | .insert channel pos text => topicOp s channel (.insert pos text)
  | .replaceAt channel pos text => topicOp s channel (.replaceAt pos text)
  | .removeAt channel pos => topicOp s channel (.removeAt pos)
  | .pop channel => topicOp s channel .pop
  | .undo channel => topic_undo s channel
  | .updated channel newtopic => on_topic_updated s channel newtopic
  | .timeout channel => topic_timeout s channel

def runT (evs : List TEv) : TopicSys := evs.foldl stepT topicInit

/-- Running `topic_undo` on a history of at least two entries drops exactly the
last two entries and issues the second-to-last topic. -/
theorem topic_undo_drop_two (s : TopicSys) (channel : String) (t u : String)
    (l : List String) (hst : stackOf s channel = l ++ [t, u]) :
    stackOf (topic_undo s channel) channel = l ∧
    (topic_undo s channel).emitted = s.emitted ++ [Req.topic channel t] ∧
    (topic_undo s channel).replies = s.replies := by
  have hlen : ¬ (stackOf s channel).length < 2 := by
    rw [hst]
    simp
  have hd1 : (stackOf s channel).dropLast = l ++ [t] := by
    rw [hst, show l ++ [t, u] = (l ++ [t]) ++ [u] from by simp, List.dropLast_concat]
  have hd2 : (l ++ [t]).dropLast = l := List.dropLast_concat ..
  refine ⟨?_, ?_, ?_⟩ <;>
    simp only [topic_undo, if_neg hlen, hd1, hd2, List.getLast?_concat]
  simp [stackOf]

/-- C7 fails on the code: `topic_undo` pops two entries off the stored
per-channel history itself, so a client-initiated edit does change the
stack (here from ["a", "b"] to []). -/
theorem C7_cex_undo_mutates_stack :
    stackOf (runT [TEv.updated "#c" "a", TEv.updated "#c" "b"]) "#c" = ["a", "b"] ∧
    stackOf (stepT (runT [TEv.updated "#c" "a", TEv.updated "#c" "b"]) (TEv.undo "#c"))
      "#c" = [] :=
  ⟨by decide, by decide⟩

/-- C7 amended: the per-channel topic history is mutated only by confirmed
topic-updated notifications and by `undo` (which consumes two entries and
issues the older topic); `append`, `insert`, `replace`, `remove` and `pop`
never change any channel's stored history — they only issue requests,
register waiters or reply — and the fetch timeout leaves it unchanged
too. -/
theorem C7_frame_amended :
    (∀ (s : TopicSys) (channel ch' : String) (k : Cont),
      stackOf (topicOp s channel k) ch' = stackOf s ch') ∧
    (∀ (s : TopicSys) (channel ch' : String),
      stackOf (topic_timeout s channel) ch' = stackOf s ch') ∧
    (∀ (s : TopicSys) (channel : String),
      (stackOf s channel).length < 2 →
      ∀ ch', stackOf (topic_undo s channel) ch' = stackOf s ch') ∧
    (∀ (s : TopicSys) (channel : String) (t u : String) (l : List String),
      stackOf s channel = l ++ [t, u] →
      stackOf (topic_undo s channel) channel = l) := by
  refine ⟨?_, ?_, ?_, ?_⟩
  · intro s channel ch' k
    rcases hc : (stackOf s channel).getLast? with _ | cur <;>
      simp only [topicOp, hc]
    · rfl
    · cases runCont channel cur k <;> rfl
  · intro s channel ch'
    rfl
  · intro s channel hlen ch'
    simp only [topic_undo, if_pos hlen]
    rfl
  · intro s channel t u l hst
    exact (topic_undo_drop_two s channel t u l hst).1

/-- Witness for C7's amended statement at concrete states. -/
theorem C7_frame_amended_witness :
    stackOf (topicOp (runT [TEv.updated "#c" "a"]) "#c" (Cont.append "x")) "#c" = ["a"] ∧
    stackOf (topic_undo (runT [TEv.updated "#c" "a"]) "#c") "#c" = ["a"] ∧
    stackOf (topic_undo (runT [TEv.updated "#c" "a", TEv.updated "#c" "b"]) "#c") "#c"
      = [] := by
  refine ⟨?_, ?_, ?_⟩
  · rw [C7_frame_amended.1 (runT [TEv.updated "#c" "a"]) "#c" "#c" (Cont.append "x")]
    decide
  · rw [C7_frame_amended.2.2.1 (runT [TEv.updated "#c" "a"]) "#c" (by decide) "#c"]
    decide
  · exact C7_frame_amended.2.2.2 (runT [TEv.updated "#c" "a", TEv.updated "#c" "b"])
      "#c" "a" "b" [] (by decide)

/-- C8: `topic undo` on a channel with fewer than 2 recorded topics only
replies that it cannot undo — no request is issued and no state besides
the reply list changes; with exactly 2 recorded topics it consumes both
(the stored history becomes empty) and re-issues the older topic as the
topic-change request. -/
theorem C8_undo_semantics (s : TopicSys) (channel : String) :
    ((stackOf s channel).length < 2 →
      topic_undo s channel = { s with replies := s.replies ++ [noHistoryMsg] }) ∧
    (∀ t u, stackOf s channel = [t, u] →
      stackOf (topic_undo s channel) channel = [] ∧
      (topic_undo s channel).emitted = s.emitted ++ [Req.topic channel t] ∧
      (topic_undo s channel).replies = s.replies) := by
  constructor
  · intro hlen
    simp only [topic_undo, if_pos hlen]
  · intro t u hst
    have h := topic_undo_drop_two s channel t u [] (by simpa using hst)
    exact ⟨by simpa using h.1, h.2.1, h.2.2⟩

/-- Witness for C8 at concrete histories of length 1 and 2. -/
theorem C8_undo_semantics_witness :
    topic_undo (runT [TEv.updated "#c" "a"]) "#c" =
      { runT [TEv.updated "#c" "a"] with
        replies := (runT [TEv.updated "#c" "a"]).replies ++ [noHistoryMsg] } ∧
    stackOf (topic_undo (runT [TEv.updated "#c" "a", TEv.updated "#c" "b"]) "#c") "#c"
      = [] ∧
    (topic_undo (runT [TEv.updated "#c" "a", TEv.updated "#c" "b"]) "#c").emitted =
      (runT [TEv.updated "#c" "a", TEv.updated "#c" "b"]).emitted ++
        [Req.topic "#c" "a"] := by
  have h1 := (C8_undo_semantics (runT [TEv.updated "#c" "a"]) "#c").1 (by decide)
  have h2 := (C8_undo_semantics (runT [TEv.updated "#c" "a", TEv.updated "#c" "b"])
    "#c").2 "a" "b" (by decide)
  exact ⟨h1, h2.1, h2.2.1⟩

/-- C9 fails on the code: `topicinsert` performs `topic_parts.insert(pos,
text)` with no try/except, and Python `list.insert` clamps out-of-range
positions instead of raising IndexError, so inserting at position 100 into
a one-segment topic issues a topic request and reports no error. -/
theorem C9_cex_insert_out_of_range_no_error :
    (stepT (runT [TEv.updated "#c" "a"]) (TEv.insert "#c" 100 "x")).emitted =
      [Req.topic "#c" "a | x"] ∧
    (stepT (runT [TEv.updated "#c" "a"]) (TEv.insert "#c" 100 "x")).replies = [] :=
  ⟨by decide, by decide⟩

/-- C9 amended: positional `replace` and `remove` edits whose index is out
of range for the current topic's segment list reply with the
index-out-of-range message carrying the valid segment count and issue no
topic-change request; `insert`, however, never fails — Python
`list.insert` clamps the position, so an out-of-range insert still issues
the request. -/
theorem C9_positional_errors_amended :
    (∀ (s : TopicSys) (channel cur : String) (pos : Int) (text : String),
      (stackOf s channel).getLast? = some cur →
      pyIdx (topicParts cur).length pos = none →
      topicOp s channel (.replaceAt pos text) =
        { s with replies := s.replies ++ [idxErrMsg (topicParts cur).length] } ∧
      topicOp s channel (.removeAt pos) =
        { s with replies := s.replies ++ [idxErrMsg (topicParts cur).length] }) ∧
    (∀ (s : TopicSys) (channel cur : String) (pos : Int) (text : String),
      (stackOf s channel).getLast? = some cur →
      topicOp s channel (.insert pos text) =
        { s with emitted := s.emitted ++
            [Req.topic channel (joinParts (pyInsert (topicParts cur) pos text))] }) := by
  constructor
  · intro s channel cur pos text hcur hidx
    constructor <;>
      simp only [topicOp, hcur, runCont, pySet, pyDel, hidx, Option.map_none', applyCAct]
  · intro s channel cur pos text hcur
    simp only [topicOp, hcur, runCont, applyCAct]

/-- Witness for C9's amended statement: replacing or removing segment 5 of
the two-segment topic "a | b" fails with the count 2 and no request;
inserting at 100 issues the clamped edit. -/
theorem C9_positional_errors_amended_witness :
    topicOp (runT [TEv.updated "#c" "a | b"]) "#c" (Cont.replaceAt 5 "x") =
      { runT [TEv.updated "#c" "a | b"] with
        replies := (runT [TEv.updated "#c" "a | b"]).replies ++ [idxErrMsg 2] } ∧
    topicOp (runT [TEv.updated "#c" "a | b"]) "#c" (Cont.removeAt 5) =
      { runT [TEv.updated "#c" "a | b"] with
        replies := (runT [TEv.updated "#c" "a | b"]).replies ++ [idxErrMsg 2] } ∧
    topicOp (runT [TEv.updated "#c" "a"]) "#c" (Cont.insert 100 "x") =
      { runT [TEv.updated "#c" "a"] with
        emitted := (runT [TEv.updated "#c" "a"]).emitted ++ [Req.topic "#c" "a | x"] } := by
  have h1 := C9_positional_errors_amended.1 (runT [TEv.updated "#c" "a | b"]) "#c"
    "a | b" 5 "x" (by decide) (by decide)
  have h2 := C9_positional_errors_amended.2 (runT [TEv.updated "#c" "a"]) "#c" "a" 100 "x"
    (by decide)
  refine ⟨?_, ?_, ?_⟩
  · rw [h1.1]
    decide
  · rw [h1.2]
    decide
  · rw [h2]
    decide

/-! ### Auth correlation broker (auth.py lines 19-184)

`authd_users` maps hostmasks to account names, `nick2mask` maps nicks to
hostmasks while a WHOIS is in flight, and `waiting` is the
`defaultdict(set)` of deferreds per hostmask, modelled as lists of fresh
numeric ids.  `perms` stands for both `self.permissions[authname]` and
`config['perms'].get(authname, [])`, which carry the same data.
`sentWhois` lists the nicknames of the `irc.do_whois` events sent,
`armedA` the hostmasks with a `reactor.callLater(5, _fail_request, h)`
pending, and `log` records each deferred resolution together with the
delivered permission list. -/

structure AuthState where
  authd_users : List (String × String)
  nick2mask : List (String × String)
  waiting : List (String × List Nat)
  nextW : Nat
  sentWhois : List String
  armedA : List String
  log : List (Nat × List String)
  deriving DecidableEq

def authInit : AuthState := ⟨[], [], [], 0, [], [], []⟩

/-- A `defaultdict(set)` read `self.waiting[hostmask]`: creates an empty
entry when the key is absent. -/
def dgetWaiting (s : AuthState) (hostmask : String) : AuthState × List Nat :=
  match alookup hostmask s.waiting with
  | some l => (s, l)
  | none => ({ s with waiting := aset hostmask [] s.waiting }, [])

/-- Models `Auth._check_ready` (auth.py 96-125): when deferreds are waiting for
the hostmask and the user is authenticated, deliver
`self.permissions[authname]` to every deferred and delete the waiter
set. -/
def check_ready (perms : String → List String) (s : AuthState) (hostmask : String) :
    AuthState :=
  let dg := dgetWaiting s hostmask
  if dg.2 = [] then dg.1
  else
    match alookup hostmask dg.1.authd_users with
    | none => dg.1
    | some authname =>
      { dg.1 with
        log := dg.1.log ++ dg.2.map (fun d => (d, perms authname))
        waiting := aerase hostmask dg.1.waiting }

/-- Models `Auth._fail_request` (auth.py 127-141), run 5 seconds after the whois:
if deferreds are still waiting, deliver the empty permission list to each
and delete the waiter set. -/
def fail_request (s : AuthState) (hostmask : String) : AuthState :=
  let dg := dgetWaiting s hostmask
  if dg.2 = [] then dg.1
  else
    { dg.1 with
      log := dg.1.log ++ dg.2.map (fun d => (d, []))
      waiting := aerase hostmask dg.1.waiting }

/-- The `RPL_WHOISUSER` arm of `Auth.on_event_irc_on_unknown`
(auth.py 75-79). -/
def on_whoisuser (s : AuthState) (nick user host : String) : AuthState :=
  { s with nick2mask := aset nick (nick ++ "!" ++ user ++ "@" ++ host) s.nick2mask }

/-- The `330` (RPL_WHOISACCOUNT) arm of `Auth.on_event_irc_on_unknown`
(auth.py 81-94): pop the hostmask recorded by RPL_WHOISUSER (logging and
stopping when it is unknown), record the authname, and run
`_check_ready`. -/
def on_whoisaccount (perms : String → List String) (s : AuthState)
    (nick authname : String) : AuthState :=
  match alookup nick s.nick2mask with
  | none => s
  | some hostmask =>
    check_ready perms
      { s with
        nick2mask := aerase nick s.nick2mask
        authd_users := aset hostmask authname s.authd_users }
      hostmask

/-- Models `Auth._get_permissions` (auth.py 144-184): an authenticated hostmask is
answered immediately from the cache (no waiter, no request); a hostmask
already in `waiting` gets one more deferred attached and no whois is sent
and no timeout armed; otherwise a fresh deferred is registered, the
`irc.do_whois` event for `hostmask.split("!", 1)[0]` is sent, and the
5-second `_fail_request` timeout is armed. -/
def get_permissions (perms : String → List String) (s : AuthState) (hostmask : String) :
    AuthState :=
  if (alookup hostmask s.authd_users).isSome then
    s
  else if hostmask ∈ akeys s.waiting then
    { s with
      waiting := aset hostmask
        (((alookup hostmask s.waiting).getD []) ++ [s.nextW]) s.waiting
      nextW := s.nextW + 1 }
  else
    { s with
      waiting := aset hostmask
        (((alookup hostmask s.waiting).getD []) ++ [s.nextW]) s.waiting
      nextW := s.nextW + 1
      sentWhois := s.sentWhois ++ [nickPartOf hostmask]
      armedA := s.armedA ++ [hostmask] }

inductive AEv
  | getPerms (hostmask : String)
  | whoisUser (nick user host : String)
  | whoisAccount (nick authname : String)
  | failReq (hostmask : String)

def stepA (perms : String → List String) (s : AuthState) : AEv → AuthState
  | .getPerms hostmask => get_permissions perms s hostmask
  | .whoisUser nick user host => on_whoisuser s nick user host
  | .whoisAccount nick authname => on_whoisaccount perms s nick authname
  | .failReq hostmask => fail_request s hostmask

def runA (perms : String → List String) (evs : List AEv) : AuthState :=
  evs.foldl (stepA perms) authInit

/-! #### Exactly-once waiter accounting -/

def tLogIds (s : TopicSys) : List Nat := s.log.map (·.1)

def tWaitersOf (s : TopicSys) (channel : String) : List (Nat × Cont) :=
  (alookup channel s.topic_waiters).getD []

def tWaiterIds (s : TopicSys) (channel : String) : List Nat :=
  (tWaitersOf s channel).map (·.1)

def tAllWids (s : TopicSys) : List Nat := (avals s.topic_waiters).map (·.1)

def TopicWInv (s : TopicSys) : Prop :=
  (tLogIds s ++ tAllWids s).Nodup ∧
  (∀ i ∈ tLogIds s ++ tAllWids s, i < s.nextW) ∧
  (akeys s.topic_waiters).Nodup

def aLogIds (s : AuthState) : List Nat := s.log.map (·.1)

def aWaitIds (s : AuthState) (hostmask : String) : List Nat :=
  (alookup hostmask s.waiting).getD []

def aAllWids (s : AuthState) : List Nat := avals s.waiting

def AuthWInv (s : AuthState) : Prop :=
  (aLogIds s ++ aAllWids s).Nodup ∧
  (∀ i ∈ aLogIds s ++ aAllWids s, i < s.nextW) ∧
  (akeys s.waiting).Nodup

theorem nodup_append_singleton_of_lt {l : List Nat} {n : Nat}
    (hn : l.Nodup) (hb : ∀ i ∈ l, i < n) : (l ++ [n]).Nodup := by
  rw [List.nodup_append]
  refine ⟨hn, List.nodup_singleton n, ?_⟩
  intro a ha hb'
  rw [List.mem_singleton] at hb'
  exact absurd hb' (Nat.ne_of_lt (hb a ha))

/-- Attaching fresh waiters to the set at `k` extends the joined waiter
collection by exactly those waiters, up to permutation. -/
theorem avals_aset_append_perm [DecidableEq α] {w : List (α × List β)} (k : α)
    (x : List β) (hk : (akeys w).Nodup) :
    List.Perm (avals (aset k (((alookup k w).getD []) ++ x) w)) (avals w ++ x) := by
  rw [avals_aset, ← List.append_assoc]
  refine List.Perm.append_right x ?_
  exact (List.perm_append_comm).trans (avals_perm_aerase k hk).symm

theorem applyCAct_fields (s : TopicSys) (a : CAct) :
    (applyCAct s a).topic_stack = s.topic_stack ∧
    (applyCAct s a).topic_waiters = s.topic_waiters ∧
    (applyCAct s a).nextW = s.nextW ∧
    (applyCAct s a).log = s.log ∧
    (applyCAct s a).armed = s.armed := by
  cases a <;> exact ⟨rfl, rfl, rfl, rfl, rfl⟩

theorem foldlCAct_fields (channel newtopic : String) (w : List (Nat × Cont)) :
    ∀ s : TopicSys,
      (w.foldl (fun acc p => applyCAct acc (runCont channel newtopic p.2)) s).topic_waiters
          = s.topic_waiters ∧
      (w.foldl (fun acc p => applyCAct acc (runCont channel newtopic p.2)) s).log
          = s.log ∧
      (w.foldl (fun acc p => applyCAct acc (runCont channel newtopic p.2)) s).nextW
          = s.nextW := by
  induction w with
  | nil => exact fun _ => ⟨rfl, rfl, rfl⟩
  | cons p r ih =>
    intro s
    rw [List.foldl_cons]
    obtain ⟨h1, h2, h3⟩ := ih (applyCAct s (runCont channel newtopic p.2))
    obtain ⟨_, g2, g3, g4, _⟩ := applyCAct_fields s (runCont channel newtopic p.2)
    exact ⟨h1.trans g2, h2.trans g4, h3.trans g3⟩

/-- Field characterisation of `on_event_irc_on_topic_updated`: it appends
one successful resolution per pending waiter of the channel and deletes
the channel's waiter set; the waiter allocator is untouched. -/
theorem on_topic_updated_spec (s : TopicSys) (channel newtopic : String) :
    (on_topic_updated s channel newtopic).log =
      s.log ++ (tWaitersOf s channel).map (fun p => (p.1, true)) ∧
    (on_topic_updated s channel newtopic).topic_waiters =
      aerase channel s.topic_waiters ∧
    (on_topic_updated s channel newtopic).nextW = s.nextW := by
  unfold on_topic_updated
  by_cases hif : (stackOf s channel).getLast? ≠ some newtopic
  · simp only [if_pos hif]
    refine ⟨?_, ?_, ?_⟩
    · rw [(foldlCAct_fields channel newtopic _ _).2.1]
      rfl
    · rw [(foldlCAct_fields channel newtopic _ _).1]
    · rw [(foldlCAct_fields channel newtopic _ _).2.2]
  · simp only [if_neg hif]
    refine ⟨?_, ?_, ?_⟩
    · rw [(foldlCAct_fields channel newtopic _ _).2.1]
      rfl
    · rw [(foldlCAct_fields channel newtopic _ _).1]
    · rw [(foldlCAct_fields channel newtopic _ _).2.2]

theorem topic_timeout_spec (s : TopicSys) (channel : String) :
    (topic_timeout s channel).log =
      s.log ++ (tWaitersOf s channel).map (fun p => (p.1, false)) ∧
    (topic_timeout s channel).topic_waiters = aerase channel s.topic_waiters ∧
    (topic_timeout s channel).nextW = s.nextW ∧
    (topic_timeout s channel).replies = s.replies ++ (tWaitersOf s channel).map
      (fun _ => "Could not determine current topic") :=
  ⟨rfl, rfl, rfl, rfl⟩

/-- Resolving and clearing the waiter set at a key preserves the
exactly-once invariant: the resolved ids move from the waiter collection
to the log. -/
theorem winv_resolve {s : TopicSys} (hs : TopicWInv s) {s' : TopicSys} (channel : String)
    (b : Bool)
    (hlog : s'.log = s.log ++ (tWaitersOf s channel).map (fun p => (p.1, b)))
    (hwait : s'.topic_waiters = aerase channel s.topic_waiters)
    (hnext : s'.nextW = s.nextW) : TopicWInv s' := by
  obtain ⟨hnd, hbound, hkeys⟩ := hs
  have hperm : List.Perm (tLogIds s' ++ tAllWids s') (tLogIds s ++ tAllWids s) := by
    have h1 : tLogIds s' = tLogIds s ++ tWaiterIds s channel := by
      rw [tLogIds, hlog, List.map_append, List.map_map]
      rfl
    have h2 : tAllWids s' = (avals (aerase channel s.topic_waiters)).map (·.1) := by
      rw [tAllWids, hwait]
    rw [h1, h2, List.append_assoc]
    refine List.Perm.append_left (tLogIds s) ?_
    have h4 := ((avals_perm_aerase channel hkeys).symm).map (fun p : Nat × Cont => p.1)
    rw [List.map_append] at h4
    exact h4
  refine ⟨(hperm.nodup_iff).2 hnd, ?_, ?_⟩
  · intro i hi
    rw [hnext]
    exact hbound i (hperm.mem_iff.1 hi)
  · rw [hwait]
    exact nodup_akeys_aerase channel hkeys

/-- Registering a fresh waiter preserves the exactly-once invariant. -/
theorem winv_register {s : TopicSys} (hs : TopicWInv s) {s' : TopicSys} (channel : String)
    (k : Cont)
    (hlog : s'.log = s.log)
    (hwait : s'.topic_waiters =
      aset channel (((alookup channel s.topic_waiters).getD []) ++ [(s.nextW, k)])
        s.topic_waiters)
    (hnext : s'.nextW = s.nextW + 1) : TopicWInv s' := by
  obtain ⟨hnd, hbound, hkeys⟩ := hs
  have hperm : List.Perm (tLogIds s' ++ tAllWids s')
      ((tLogIds s ++ tAllWids s) ++ [s.nextW]) := by
    have h1 : tLogIds s' = tLogIds s := by rw [tLogIds, hlog]; rfl
    have h2 := (avals_aset_append_perm channel [(s.nextW, k)] hkeys).map
      (fun p : Nat × Cont => p.1)
    rw [List.map_append] at h2
    have h3 : tAllWids s' = (avals s'.topic_waiters).map (·.1) := rfl
    rw [h1, List.append_assoc]
    refine List.Perm.append_left (tLogIds s) ?_
    rw [h3, hwait]
    exact h2
  refine ⟨(hperm.nodup_iff).2 (nodup_append_singleton_of_lt hnd hbound), ?_, ?_⟩
  · intro i hi
    rw [hnext]
    rcases List.mem_append.1 (hperm.mem_iff.1 hi) with hm | hm
    · exact Nat.lt_succ_of_lt (hbound i hm)
    · rw [List.mem_singleton] at hm
      omega
  · rw [hwait]
    exact nodup_akeys_aset _ _ hkeys

theorem topicWInv_init : TopicWInv topicInit := by
  refine ⟨?_, ?_, ?_⟩ <;> simp [tLogIds, tAllWids, topicInit, avals, akeys]

theorem topicOp_winv {s : TopicSys} (hs : TopicWInv s) (channel : String) (k : Cont) :
    TopicWInv (topicOp s channel k) := by
  rcases hc : (stackOf s channel).getLast? with _ | cur <;> simp only [topicOp, hc]
  · exact winv_register hs channel k rfl rfl rfl
  · obtain ⟨hnd, hbound, hkeys⟩ := hs
    cases hr : runCont channel cur k <;> exact ⟨hnd, hbound, hkeys⟩

theorem topic_undo_fields (s : TopicSys) (channel : String) :
    (topic_undo s channel).log = s.log ∧
    (topic_undo s channel).topic_waiters = s.topic_waiters ∧
    (topic_undo s channel).nextW = s.nextW := by
  unfold topic_undo
  by_cases hlen : (stackOf s channel).length < 2
  · rw [if_pos hlen]
    exact ⟨rfl, rfl, rfl⟩
  · rw [if_neg hlen]
    rcases hg : (stackOf s channel).dropLast.getLast? with _ | t <;>
      exact ⟨rfl, rfl, rfl⟩

theorem topicWInv_step {s : TopicSys} (hs : TopicWInv s) (e : TEv) :
    TopicWInv (stepT s e) := by
  cases e with
  | append channel text => exact topicOp_winv hs channel _
  | insert channel pos text => exact topicOp_winv hs channel _
  | replaceAt channel pos text => exact topicOp_winv hs channel _
  | removeAt channel pos => exact topicOp_winv hs channel _
  | pop channel => exact topicOp_winv hs channel _
  | undo channel =>
    obtain ⟨h1, h2, h3⟩ := topic_undo_fields s channel
    obtain ⟨hnd, hbound, hkeys⟩ := hs
    have e1 : tLogIds (topic_undo s channel) = tLogIds s :=
      congrArg (List.map (fun p : Nat × Bool => p.1)) h1
    have e2 : tAllWids (topic_undo s channel) = tAllWids s :=
      congrArg (fun w => List.map (fun p : Nat × Cont => p.1) (avals w)) h2
    refine ⟨?_, ?_, ?_⟩
    · show (tLogIds (topic_undo s channel) ++ tAllWids (topic_undo s channel)).Nodup
      rw [e1, e2]
      exact hnd
    · intro i hi
      show i < (topic_undo s channel).nextW
      rw [h3]
      refine hbound i ?_
      show i ∈ tLogIds s ++ tAllWids s
      rw [← e1, ← e2]
      exact hi
    · show (akeys (topic_undo s channel).topic_waiters).Nodup
      rw [h2]
      exact hkeys
  | updated channel newtopic =>
    obtain ⟨h1, h2, h3⟩ := on_topic_updated_spec s channel newtopic
    exact winv_resolve hs channel true h1 h2 h3
  | timeout channel =>
    obtain ⟨h1, h2, h3, _⟩ := topic_timeout_spec s channel
    exact winv_resolve hs channel false h1 h2 h3

theorem topicWInv_run (evs : List TEv) : TopicWInv (runT evs) := by
  rw [runT]
  generalize hinit : topicInit = s₀
  have hs₀ : TopicWInv s₀ := hinit ▸ topicWInv_init
  clear hinit
  induction evs generalizing s₀ with
  | nil => exact hs₀
  | cons e r ih => exact ih _ (topicWInv_step hs₀ e)

/-! #### Auth-side invariant preservation -/

theorem map_fst_map_pair (vals : Nat → List String) (l : List Nat) :
    (l.map (fun d => (d, vals d))).map (fun p : Nat × List String => p.1) = l := by
  induction l with
  | nil => rfl
  | cons x r ih =>
    simp only [List.map_cons]
    rw [ih]

theorem awinv_resolve {s : AuthState} (hs : AuthWInv s) {s' : AuthState}
    (hostmask : String) (vals : Nat → List String)
    (hlog : s'.log = s.log ++ (aWaitIds s hostmask).map (fun d => (d, vals d)))
    (hwait : s'.waiting = aerase hostmask s.waiting)
    (hnext : s'.nextW = s.nextW) : AuthWInv s' := by
  obtain ⟨hnd, hbound, hkeys⟩ := hs
  have hperm : List.Perm (aLogIds s' ++ aAllWids s') (aLogIds s ++ aAllWids s) := by
    have hmap := map_fst_map_pair vals (aWaitIds s hostmask)
    have h1 : aLogIds s' = aLogIds s ++ aWaitIds s hostmask := by
      show s'.log.map (fun p : Nat × List String => p.1) = _
      rw [hlog, List.map_append, hmap]
      rfl
    have h2 : aAllWids s' = avals (aerase hostmask s.waiting) := by
      rw [aAllWids, hwait]
    rw [h1, h2, List.append_assoc]
    exact List.Perm.append_left (aLogIds s) (avals_perm_aerase hostmask hkeys).symm
  refine ⟨(hperm.nodup_iff).2 hnd, ?_, ?_⟩
  · intro i hi
    rw [hnext]
    exact hbound i (hperm.mem_iff.1 hi)
  · rw [hwait]
    exact nodup_akeys_aerase hostmask hkeys

theorem awinv_register {s : AuthState} (hs : AuthWInv s) {s' : AuthState}
    (hostmask : String)
    (hlog : s'.log = s.log)
    (hwait : s'.waiting =
      aset hostmask (((alookup hostmask s.waiting).getD []) ++ [s.nextW]) s.waiting)
    (hnext : s'.nextW = s.nextW + 1) : AuthWInv s' := by
  obtain ⟨hnd, hbound, hkeys⟩ := hs
  have hperm : List.Perm (aLogIds s' ++ aAllWids s')
      ((aLogIds s ++ aAllWids s) ++ [s.nextW]) := by
    have h1 : aLogIds s' = aLogIds s :=
      congrArg (List.map (fun p : Nat × List String => p.1)) hlog
    have h2 := avals_aset_append_perm hostmask [s.nextW] hkeys
    rw [h1, List.append_assoc]
    refine List.Perm.append_left (aLogIds s) ?_
    show List.Perm (avals s'.waiting) _
    rw [hwait]
    exact h2
  refine ⟨(hperm.nodup_iff).2 (nodup_append_singleton_of_lt hnd hbound), ?_, ?_⟩
  · intro i hi
    rw [hnext]
    rcases List.mem_append.1 (hperm.mem_iff.1 hi) with hm | hm
    · exact Nat.lt_succ_of_lt (hbound i hm)
    · rw [List.mem_singleton] at hm
      omega
  · rw [hwait]
    exact nodup_akeys_aset _ _ hkeys

theorem awinv_same {s : AuthState} (hs : AuthWInv s) {s' : AuthState}
    (hlog : s'.log = s.log) (hwait : s'.waiting = s.waiting)
    (hnext : s'.nextW = s.nextW) : AuthWInv s' := by
  obtain ⟨hnd, hbound, hkeys⟩ := hs
  have e1 : aLogIds s' = aLogIds s :=
    congrArg (List.map (fun p : Nat × List String => p.1)) hlog
  have e2 : aAllWids s' = aAllWids s := congrArg avals hwait
  refine ⟨?_, ?_, ?_⟩
  · show (aLogIds s' ++ aAllWids s').Nodup
    rw [e1, e2]
    exact hnd
  · intro i hi
    rw [e1, e2] at hi
    rw [hnext]
    exact hbound i hi
  · rw [hwait]
    exact hkeys

theorem awinv_create {s : AuthState} (hs : AuthWInv s) {s' : AuthState}
    (hostmask : String)
    (hw0 : alookup hostmask s.waiting = none)
    (hlog : s'.log = s.log)
    (hwait : s'.waiting = aset hostmask [] s.waiting)
    (hnext : s'.nextW = s.nextW) : AuthWInv s' := by
  obtain ⟨hnd, hbound, hkeys⟩ := hs
  have hnm : hostmask ∉ akeys s.waiting := by
    intro hm
    have hsome := alookup_isSome_of_mem_akeys hm
    rw [hw0] at hsome
    exact absurd hsome (by simp)
  have hav : aAllWids s' = aAllWids s := by
    show avals s'.waiting = avals s.waiting
    rw [hwait, avals_aset, aerase_of_not_mem_akeys hnm, List.append_nil]
  have e1 : aLogIds s' = aLogIds s :=
    congrArg (List.map (fun p : Nat × List String => p.1)) hlog
  refine ⟨?_, ?_, ?_⟩
  · show (aLogIds s' ++ aAllWids s').Nodup
    rw [e1, hav]
    exact hnd
  · intro i hi
    rw [e1, hav] at hi
    rw [hnext]
    exact hbound i hi
  · rw [hwait]
    exact nodup_akeys_aset _ _ hkeys

theorem check_ready_winv {s : AuthState} (hs : AuthWInv s)
    (perms : String → List String) (hostmask : String) :
    AuthWInv (check_ready perms s hostmask) := by
  rcases halk : alookup hostmask s.waiting with _ | l
  · have hred : check_ready perms s hostmask =
        { s with waiting := aset hostmask [] s.waiting } := by
      unfold check_ready dgetWaiting
      rw [halk]
      rfl
    rw [hred]
    exact awinv_create hs hostmask halk rfl rfl rfl
  · by_cases hl : l = []
    · have hred : check_ready perms s hostmask = s := by
        unfold check_ready dgetWaiting
        rw [halk]
        simp [hl]
      rw [hred]
      exact hs
    · rcases hauth : alookup hostmask s.authd_users with _ | a
      · have hred : check_ready perms s hostmask = s := by
          unfold check_ready dgetWaiting
          rw [halk]
          simp [hl, hauth]
        rw [hred]
        exact hs
      · have hred : check_ready perms s hostmask =
            { s with log := s.log ++ l.map (fun d => (d, perms a)),
                     waiting := aerase hostmask s.waiting } := by
          unfold check_ready dgetWaiting
          rw [halk]
          simp [hl, hauth]
        rw [hred]
        refine awinv_resolve hs hostmask (fun _ => perms a) ?_ rfl rfl
        show s.log ++ l.map (fun d => (d, perms a)) =
          s.log ++ (aWaitIds s hostmask).map (fun d => (d, perms a))
        rw [aWaitIds, halk]
        rfl

theorem fail_request_winv {s : AuthState} (hs : AuthWInv s) (hostmask : String) :
    AuthWInv (fail_request s hostmask) := by
  rcases halk : alookup hostmask s.waiting with _ | l
  · have hred : fail_request s hostmask =
        { s with waiting := aset hostmask [] s.waiting } := by
      unfold fail_request dgetWaiting
      rw [halk]
      rfl
    rw [hred]
    exact awinv_create hs hostmask halk rfl rfl rfl
  · by_cases hl : l = []
    · have hred : fail_request s hostmask = s := by
        unfold fail_request dgetWaiting
        rw [halk]
        simp [hl]
      rw [hred]
      exact hs
    · have hred : fail_request s hostmask =
          { s with log := s.log ++ l.map (fun d => (d, ([] : List String))),
                   waiting := aerase hostmask s.waiting } := by
        unfold fail_request dgetWaiting
        rw [halk]
        simp [hl]
      rw [hred]
      refine awinv_resolve hs hostmask (fun _ => []) ?_ rfl rfl
      show s.log ++ l.map (fun d => (d, ([] : List String))) =
        s.log ++ (aWaitIds s hostmask).map (fun d => (d, []))
      rw [aWaitIds, halk]
      rfl

theorem on_whoisaccount_winv {s : AuthState} (hs : AuthWInv s)
    (perms : String → List String) (nick authname : String) :
    AuthWInv (on_whoisaccount perms s nick authname) := by
  unfold on_whoisaccount
  rcases hmap : alookup nick s.nick2mask with _ | hostmask
  · exact hs
  · refine check_ready_winv ?_ perms hostmask
    exact awinv_same hs rfl rfl rfl

theorem get_permissions_winv {s : AuthState} (hs : AuthWInv s)
    (perms : String → List String) (hostmask : String) :
    AuthWInv (get_permissions perms s hostmask) := by
  unfold get_permissions
  by_cases hauth : (alookup hostmask s.authd_users).isSome
  · rw [if_pos hauth]
    exact hs
  · rw [if_neg hauth]
    by_cases hmem : hostmask ∈ akeys s.waiting
    · rw [if_pos hmem]
      exact awinv_register hs hostmask rfl rfl rfl
    · rw [if_neg hmem]
      exact awinv_register hs hostmask rfl rfl rfl

theorem authWInv_init : AuthWInv authInit := by
  refine ⟨?_, ?_, ?_⟩ <;> simp [aLogIds, aAllWids, authInit, avals, akeys]

theorem authWInv_step {s : AuthState} (hs : AuthWInv s)
    (perms : String → List String) (e : AEv) : AuthWInv (stepA perms s e) := by
  cases e with
  | getPerms hostmask => exact get_permissions_winv hs perms hostmask
  | whoisUser nick user host => exact awinv_same hs rfl rfl rfl
  | whoisAccount nick authname => exact on_whoisaccount_winv hs perms nick authname
  | failReq hostmask => exact fail_request_winv hs hostmask

theorem authWInv_run (perms : String → List String) (evs : List AEv) :
    AuthWInv (runA perms evs) := by
  rw [runA]
  generalize hinit : authInit = s₀
  have hs₀ : AuthWInv s₀ := hinit ▸ authWInv_init
  clear hinit
  induction evs generalizing s₀ with
  | nil => exact hs₀
  | cons e r ih => exact ih _ (authWInv_step hs₀ perms e)

/-- Running `_fail_request` delivers the empty permission list to exactly the
still-pending deferreds of the hostmask and clears its waiter set. -/
theorem fail_request_spec (s : AuthState) (hostmask : String) :
    (fail_request s hostmask).log =
      s.log ++ (aWaitIds s hostmask).map (fun d => (d, ([] : List String))) ∧
    aWaitIds (fail_request s hostmask) hostmask = [] := by
  rcases halk : alookup hostmask s.waiting with _ | l
  · have hred : fail_request s hostmask =
        { s with waiting := aset hostmask [] s.waiting } := by
      unfold fail_request dgetWaiting
      rw [halk]
      rfl
    rw [hred]
    constructor
    · show s.log = s.log ++ (aWaitIds s hostmask).map (fun d => (d, ([] : List String)))
      simp [aWaitIds, halk]
    · show (alookup hostmask (aset hostmask [] s.waiting)).getD [] = []
      rw [alookup_aset_self]
      rfl
  · by_cases hl : l = []
    · have hred : fail_request s hostmask = s := by
        unfold fail_request dgetWaiting
        rw [halk]
        simp [hl]
      rw [hred]
      constructor
      · simp [aWaitIds, halk, hl]
      · simp only [aWaitIds, halk, Option.getD_some, hl]
    · have hred : fail_request s hostmask =
          { s with log := s.log ++ l.map (fun d => (d, ([] : List String))),
                   waiting := aerase hostmask s.waiting } := by
        unfold fail_request dgetWaiting
        rw [halk]
        simp [hl]
      rw [hred]
      constructor
      · show s.log ++ l.map (fun d => (d, ([] : List String))) =
          s.log ++ (aWaitIds s hostmask).map (fun d => (d, []))
        simp only [aWaitIds, halk, Option.getD_some]
      · show (alookup hostmask (aerase hostmask s.waiting)).getD [] = []
        rw [alookup_aerase_self]
        rfl

/-- Running `_check_ready` on an authenticated hostmask delivers the account's
permissions to exactly the pending deferreds and clears the waiter set. -/
theorem check_ready_spec_authd (perms : String → List String) (s : AuthState)
    (hostmask authname : String)
    (hauth : alookup hostmask s.authd_users = some authname) :
    (check_ready perms s hostmask).log =
      s.log ++ (aWaitIds s hostmask).map (fun d => (d, perms authname)) ∧
    aWaitIds (check_ready perms s hostmask) hostmask = [] := by
  rcases halk : alookup hostmask s.waiting with _ | l
  · have hred : check_ready perms s hostmask =
        { s with waiting := aset hostmask [] s.waiting } := by
      unfold check_ready dgetWaiting
      rw [halk]
      rfl
    rw [hred]
    constructor
    · show s.log = s.log ++ (aWaitIds s hostmask).map (fun d => (d, perms authname))
      simp [aWaitIds, halk]
    · show (alookup hostmask (aset hostmask [] s.waiting)).getD [] = []
      rw [alookup_aset_self]
      rfl
  · by_cases hl : l = []
    · have hred : check_ready perms s hostmask = s := by
        unfold check_ready dgetWaiting
        rw [halk]
        simp [hl]
      rw [hred]
      constructor
      · simp [aWaitIds, halk, hl]
      · simp only [aWaitIds, halk, Option.getD_some, hl]
    · have hred : check_ready perms s hostmask =
          { s with log := s.log ++ l.map (fun d => (d, perms authname)),
                   waiting := aerase hostmask s.waiting } := by
        unfold check_ready dgetWaiting
        rw [halk]
        simp [hl, hauth]
      rw [hred]
      constructor
      · show s.log ++ l.map (fun d => (d, perms authname)) =
          s.log ++ (aWaitIds s hostmask).map (fun d => (d, perms authname))
        simp only [aWaitIds, halk, Option.getD_some]
      · show (alookup hostmask (aerase hostmask s.waiting)).getD [] = []
        rw [alookup_aerase_self]
        rfl

/-- A 330 reply whose nick was correlated to a hostmask resolves exactly
that hostmask's pending deferreds and clears the set. -/
theorem on_whoisaccount_spec (perms : String → List String) (s : AuthState)
    (nick authname hostmask : String)
    (hmap : alookup nick s.nick2mask = some hostmask) :
    (on_whoisaccount perms s nick authname).log =
      s.log ++ (aWaitIds s hostmask).map (fun d => (d, perms authname)) ∧
    aWaitIds (on_whoisaccount perms s nick authname) hostmask = [] := by
  unfold on_whoisaccount
  rw [hmap]
  exact check_ready_spec_authd perms _ hostmask authname (alookup_aset_self _ _ _)

/-- C1 fails on the code for the topic-fetch key: `_get_current_topic`
sends the `irc.do_topic` query before checking for existing waiters, so a
second fetch of the same channel while a request is already pending issues
a second network request (two `irc.do_topic` events in the trace). -/
theorem C1_cex_topic_duplicate_request :
    tWaitersOf (runT [TEv.append "#c" "x"]) "#c" ≠ [] ∧
    (runT [TEv.append "#c" "x", TEv.append "#c" "y"]).emitted =
      [Req.doTopic "#c", Req.doTopic "#c"] :=
  ⟨by decide, by decide⟩

/-- C1 amended: for the hostmask key (WHOIS/permission resolution) the
single-flight invariant holds: a resolve call for a not-yet-authenticated
hostmask that already has a waiter set attaches a new waiter to that set,
issues no second WHOIS and arms no new timeout.  For the topic-fetch key a
resolve call while a request is pending attaches a new waiter to the
existing waiter set and arms no second timeout, but it re-sends the
`irc.do_topic` query event, so a duplicate network request is issued. -/
theorem C1_single_flight_amended :
    (∀ (perms : String → List String) (s : AuthState) (hostmask : String),
      alookup hostmask s.authd_users = none →
      hostmask ∈ akeys s.waiting →
      (get_permissions perms s hostmask).sentWhois = s.sentWhois ∧
      (get_permissions perms s hostmask).armedA = s.armedA ∧
      aWaitIds (get_permissions perms s hostmask) hostmask =
        aWaitIds s hostmask ++ [s.nextW]) ∧
    (∀ (s : TopicSys) (channel : String) (k : Cont) (w : List (Nat × Cont)),
      stackOf s channel = [] →
      alookup channel s.topic_waiters = some w → w ≠ [] →
      (topicOp s channel k).emitted = s.emitted ++ [Req.doTopic channel] ∧
      (topicOp s channel k).armed = s.armed ∧
      alookup channel (topicOp s channel k).topic_waiters =
        some (w ++ [(s.nextW, k)])) := by
  constructor
  · intro perms s hostmask hauth hmem
    have hred : get_permissions perms s hostmask =
        { s with
          waiting := aset hostmask
            (((alookup hostmask s.waiting).getD []) ++ [s.nextW]) s.waiting
          nextW := s.nextW + 1 } := by
      unfold get_permissions
      rw [hauth]
      simp [hmem]
    rw [hred]
    refine ⟨rfl, rfl, ?_⟩
    show (alookup hostmask (aset hostmask
      (((alookup hostmask s.waiting).getD []) ++ [s.nextW]) s.waiting)).getD [] =
      aWaitIds s hostmask ++ [s.nextW]
    rw [alookup_aset_self]
    rfl
  · intro s channel k w hstack hw hne
    have hlast : (stackOf s channel).getLast? = none := by
      rw [hstack]
      rfl
    simp only [topicOp, hlast, hw, Option.getD_some]
    refine ⟨by simp, ?_, ?_⟩
    · show (if w = [] then s.armed ++ [channel] else s.armed) = s.armed
      rw [if_neg hne]
    · rw [alookup_aset_self]

/-- Witness for C1's amended statement: a second permission request for a
pending hostmask, and a second topic edit for a channel with a pending
fetch. -/
theorem C1_single_flight_amended_witness :
    (get_permissions (fun _ => []) (runA (fun _ => []) [AEv.getPerms "a!u@h"])
        "a!u@h").sentWhois =
      (runA (fun _ => []) [AEv.getPerms "a!u@h"]).sentWhois ∧
    aWaitIds (get_permissions (fun _ => [])
        (runA (fun _ => []) [AEv.getPerms "a!u@h"]) "a!u@h") "a!u@h" =
      aWaitIds (runA (fun _ => []) [AEv.getPerms "a!u@h"]) "a!u@h" ++ [1] ∧
    (topicOp (runT [TEv.append "#c" "x"]) "#c" (Cont.append "y")).armed =
      (runT [TEv.append "#c" "x"]).armed ∧
    alookup "#c" (topicOp (runT [TEv.append "#c" "x"]) "#c"
        (Cont.append "y")).topic_waiters =
      some [(0, Cont.append "x"), (1, Cont.append "y")] := by
  have h1 := C1_single_flight_amended.1 (fun _ => [])
    (runA (fun _ => []) [AEv.getPerms "a!u@h"]) "a!u@h" (by decide) (by decide)
  have h2 := C1_single_flight_amended.2 (runT [TEv.append "#c" "x"]) "#c"
    (Cont.append "y") [(0, Cont.append "x")] (by decide) (by decide) (by decide)
  exact ⟨h1.1, h1.2.2, h2.2.1, h2.2.2⟩

/-- C2: exactly-once waiter resolution for both correlation brokers.  For
the topic broker, over every event interleaving from a fresh `IRCTopic`,
no waiter id is ever logged twice; a topic-updated notification resolves
exactly the waiters pending for its channel (successfully, in order) and
clears the set, and is a no-op on the log when no waiter is pending (the
late-event case); the fetch timeout resolves exactly the still-pending
waiters as failures and clears the set.  For the auth broker, over every
interleaving of permission requests, WHOIS replies and `_fail_request`
timeouts, no deferred is resolved twice; an RPL_WHOISACCOUNT whose nick
was correlated to a hostmask resolves exactly that hostmask's pending
deferreds with the account's permissions and clears the set (a no-op on
the log when none are pending); and `_fail_request` resolves exactly the
still-pending deferreds with the empty permission list and clears the
set. -/
theorem C2_exactly_once :
    (∀ evs : List TEv,
      (tLogIds (runT evs)).Nodup ∧
      (∀ channel newtopic : String,
        (stepT (runT evs) (.updated channel newtopic)).log =
          (runT evs).log ++
            (tWaitersOf (runT evs) channel).map (fun p => (p.1, true)) ∧
        tWaitersOf (stepT (runT evs) (.updated channel newtopic)) channel = [] ∧
        (tWaitersOf (runT evs) channel = [] →
          (stepT (runT evs) (.updated channel newtopic)).log = (runT evs).log)) ∧
      (∀ channel : String,
        (stepT (runT evs) (.timeout channel)).log =
          (runT evs).log ++
            (tWaitersOf (runT evs) channel).map (fun p => (p.1, false)) ∧
        tWaitersOf (stepT (runT evs) (.timeout channel)) channel = [])) ∧
    (∀ (perms : String → List String) (evs : List AEv),
      (aLogIds (runA perms evs)).Nodup ∧
      (∀ nick authname hostmask : String,
        alookup nick (runA perms evs).nick2mask = some hostmask →
        (stepA perms (runA perms evs) (.whoisAccount nick authname)).log =
          (runA perms evs).log ++
            (aWaitIds (runA perms evs) hostmask).map (fun d => (d, perms authname)) ∧
        aWaitIds (stepA perms (runA perms evs) (.whoisAccount nick authname)) hostmask
          = [] ∧
        (aWaitIds (runA perms evs) hostmask = [] →
          (stepA perms (runA perms evs) (.whoisAccount nick authname)).log =
            (runA perms evs).log)) ∧
      (∀ hostmask : String,
        (stepA perms (runA perms evs) (.failReq hostmask)).log =
          (runA perms evs).log ++
            (aWaitIds (runA perms evs) hostmask).map (fun d => (d, [])) ∧
        aWaitIds (stepA perms (runA perms evs) (.failReq hostmask)) hostmask = [])) := by
  constructor
  · intro evs
    refine ⟨?_, ?_, ?_⟩
    · exact List.Nodup.sublist (List.sublist_append_left _ _) (topicWInv_run evs).1
    · intro channel newtopic
      obtain ⟨h1, h2, _⟩ := on_topic_updated_spec (runT evs) channel newtopic
      refine ⟨h1, ?_, ?_⟩
      · show (alookup channel
          (stepT (runT evs) (.updated channel newtopic)).topic_waiters).getD [] = []
        rw [show (stepT (runT evs) (.updated channel newtopic)).topic_waiters =
          aerase channel (runT evs).topic_waiters from h2, alookup_aerase_self]
        rfl
      · intro h0
        rw [show (stepT (runT evs) (.updated channel newtopic)).log =
          (runT evs).log ++
            (tWaitersOf (runT evs) channel).map (fun p => (p.1, true)) from h1, h0]
        simp
    · intro channel
      obtain ⟨h1, h2, _, _⟩ := topic_timeout_spec (runT evs) channel
      refine ⟨h1, ?_⟩
      show (alookup channel
        (stepT (runT evs) (.timeout channel)).topic_waiters).getD [] = []
      rw [show (stepT (runT evs) (.timeout channel)).topic_waiters =
        aerase channel (runT evs).topic_waiters from h2, alookup_aerase_self]
      rfl
  · intro perms evs
    refine ⟨?_, ?_, ?_⟩
    · exact List.Nodup.sublist (List.sublist_append_left _ _) (authWInv_run perms evs).1
    · intro nick authname hostmask hmap
      obtain ⟨h1, h2⟩ := on_whoisaccount_spec perms (runA perms evs) nick authname
        hostmask hmap
      refine ⟨h1, h2, ?_⟩
      intro h0
      rw [show (stepA perms (runA perms evs) (.whoisAccount nick authname)).log =
        (runA perms evs).log ++
          (aWaitIds (runA perms evs) hostmask).map (fun d => (d, perms authname))
        from h1, h0]
      simp
    · intro hostmask
      exact fail_request_spec (runA perms evs) hostmask

/-- Witness for C2 at concrete traces of both brokers. -/
theorem C2_exactly_once_witness :
    (tLogIds (runT [TEv.append "#c" "x", TEv.updated "#c" "t"])).Nodup ∧
    tWaitersOf (stepT (runT [TEv.append "#c" "x"]) (TEv.updated "#c" "t")) "#c" = [] ∧
    (stepT (runT []) (TEv.updated "#d" "t")).log = (runT []).log ∧
    aWaitIds (stepA (fun _ => []) (runA (fun _ => [])
        [AEv.getPerms "a!u@h", AEv.whoisUser "a" "u" "h"])
      (AEv.whoisAccount "a" "acct")) "a!u@h" = [] ∧
    aWaitIds (stepA (fun _ => []) (runA (fun _ => []) [AEv.getPerms "a!u@h"])
      (AEv.failReq "a!u@h")) "a!u@h" = [] := by
  refine ⟨(C2_exactly_once.1 [TEv.append "#c" "x", TEv.updated "#c" "t"]).1,
    ((C2_exactly_once.1 [TEv.append "#c" "x"]).2.1 "#c" "t").2.1,
    ((C2_exactly_once.1 []).2.1 "#d" "t").2.2 (by decide),
    (((C2_exactly_once.2 (fun _ => [])
        [AEv.getPerms "a!u@h", AEv.whoisUser "a" "u" "h"]).2.1 "a" "acct" "a!u@h"
      (by decide)).2.1),
    ((C2_exactly_once.2 (fun _ => []) [AEv.getPerms "a!u@h"]).2.2 "a!u@h").2⟩

end Abbott
